import Mathlib

/-!
# AraRam: a single-file Tetris (`src/main.cpp`)

Shallow embedding of the game-state engine of `src/main.cpp`:
the piece catalog `TETROMINOES`, `collides`, `lockPiece`, `clearLines`,
`spawnPiece`, `resetGame` and the body of the frame loop of `main`.

Modelling conventions
* `int` values are `Int` (coordinates, score, board cells) or `Nat` where the
  source only ever stores a non-negative value (piece index `rand() % 7`,
  rotation, loop counters, array indices).
* `int score` is a 32-bit `int`: `g.score += d` is `addInt32`, the sum reduced
  to the range of `int` as the two's-complement addition of the compiled
  program does.  The C++ standard leaves a signed overflow undefined, so the
  theorems that state a new score as a plain sum assume the sum is in range.
* `std::array<int, 200> board` is a function from the array index to the cell
  value.  Every access of the source is at `idx(x, y)` with `0 <= x < 10` and
  `0 <= y < 20`, that is at an index below 200; the properties quantify over
  these 200 cells.
* `std::rand()` is an input: every function that calls it takes the returned
  value as an argument.
* The gravity loop `while (fallAccumulator >= interval)` depends on floating
  point time only through the number of its iterations; the frame takes that
  number as the length of a list which also carries, for each iteration, the
  value `std::rand()` returns if that iteration spawns.
* Rendering, the window title and the `Color` of a piece are left out.
-/

namespace AraRam

/-- Local block offset, `struct Vec2I`. -/
structure Vec2I where
  x : Int
  y : Int
deriving DecidableEq

abbrev BOARD_COLS : Nat := 10
abbrev BOARD_ROWS : Nat := 20

/-- The `rotations` member of `struct Piece`: 4 rotation states of 4 blocks. -/
structure Piece where
  rotations : List (List Vec2I)

/-- The seven tetrominoes I, O, T, S, Z, J, L, as tabulated in the source. -/
def TETROMINOES : List Piece := [
  -- I
  ⟨[[⟨0,1⟩, ⟨1,1⟩, ⟨2,1⟩, ⟨3,1⟩],
    [⟨2,0⟩, ⟨2,1⟩, ⟨2,2⟩, ⟨2,3⟩],
    [⟨0,2⟩, ⟨1,2⟩, ⟨2,2⟩, ⟨3,2⟩],
    [⟨1,0⟩, ⟨1,1⟩, ⟨1,2⟩, ⟨1,3⟩]]⟩,
  -- O
  ⟨[[⟨1,1⟩, ⟨2,1⟩, ⟨1,2⟩, ⟨2,2⟩],
    [⟨1,1⟩, ⟨2,1⟩, ⟨1,2⟩, ⟨2,2⟩],
    [⟨1,1⟩, ⟨2,1⟩, ⟨1,2⟩, ⟨2,2⟩],
    [⟨1,1⟩, ⟨2,1⟩, ⟨1,2⟩, ⟨2,2⟩]]⟩,
  -- T
  ⟨[[⟨1,1⟩, ⟨0,1⟩, ⟨2,1⟩, ⟨1,2⟩],
    [⟨1,1⟩, ⟨1,0⟩, ⟨1,2⟩, ⟨2,1⟩],
    [⟨1,1⟩, ⟨0,1⟩, ⟨2,1⟩, ⟨1,0⟩],
    [⟨1,1⟩, ⟨1,0⟩, ⟨1,2⟩, ⟨0,1⟩]]⟩,
  -- S
  ⟨[[⟨1,1⟩, ⟨2,1⟩, ⟨0,2⟩, ⟨1,2⟩],
    [⟨1,0⟩, ⟨1,1⟩, ⟨2,1⟩, ⟨2,2⟩],
    [⟨1,1⟩, ⟨2,1⟩, ⟨0,2⟩, ⟨1,2⟩],
    [⟨1,0⟩, ⟨1,1⟩, ⟨2,1⟩, ⟨2,2⟩]]⟩,
  -- Z
  ⟨[[⟨0,1⟩, ⟨1,1⟩, ⟨1,2⟩, ⟨2,2⟩],
    [⟨2,0⟩, ⟨1,1⟩, ⟨2,1⟩, ⟨1,2⟩],
    [⟨0,1⟩, ⟨1,1⟩, ⟨1,2⟩, ⟨2,2⟩],
    [⟨2,0⟩, ⟨1,1⟩, ⟨2,1⟩, ⟨1,2⟩]]⟩,
  -- J
  ⟨[[⟨0,1⟩, ⟨0,2⟩, ⟨1,1⟩, ⟨2,1⟩],
    [⟨1,0⟩, ⟨2,0⟩, ⟨1,1⟩, ⟨1,2⟩],
    [⟨0,1⟩, ⟨1,1⟩, ⟨2,1⟩, ⟨2,0⟩],
    [⟨1,0⟩, ⟨1,1⟩, ⟨1,2⟩, ⟨0,2⟩]]⟩,
  -- L
  ⟨[[⟨2,1⟩, ⟨0,1⟩, ⟨1,1⟩, ⟨2,2⟩],
    [⟨1,0⟩, ⟨1,1⟩, ⟨1,2⟩, ⟨2,2⟩],
    [⟨0,0⟩, ⟨1,1⟩, ⟨2,1⟩, ⟨0,1⟩],
    [⟨0,0⟩, ⟨1,0⟩, ⟨1,1⟩, ⟨1,2⟩]]⟩ ]

/-- The expression `TETROMINOES[pieceIdx].rotations[rot]`.  An index outside
the table (undefined behaviour in the source) yields the empty shape. -/
def shapeAt (pieceIdx rot : Nat) : List Vec2I :=
  match TETROMINOES.get? pieceIdx with
  | some p => (p.rotations.get? rot).getD []
  | none => []

/-- Board contents: array index to cell value, `-1` for empty, else `0..6`. -/
abbrev Board := Nat → Int

/-- The assignment `board[i] = v`. -/
def Board.set (b : Board) (i : Nat) (v : Int) : Board :=
  fun j => if j = i then v else b j

/-- The board filled with `-1`. -/
def emptyBoard : Board := fun _ => -1

/-- `struct GameState`. -/
structure GameState where
  board : Board
  currentPieceIdx : Nat
  rotation : Nat
  posX : Int
  posY : Int
  score : Int
  gameOver : Bool
  prevLeft : Bool
  prevRight : Bool
  prevDown : Bool
  prevUp : Bool
  prevSpace : Bool
  prevR : Bool

/-- `idx(x, y)`, called only with `0 <= x < BOARD_COLS`, `0 <= y < BOARD_ROWS`. -/
def idx (x y : Nat) : Nat := y * BOARD_COLS + x

/-- `resetGame`; `r` is the value returned by `std::rand()`. -/
def resetGame (g : GameState) (r : Nat) : GameState :=
  { g with
    board := emptyBoard
    score := 0
    gameOver := false
    prevLeft := false, prevRight := false, prevDown := false
    prevUp := false, prevSpace := false, prevR := false
    currentPieceIdx := r % 7
    rotation := 0
    posX := 3
    posY := 0 }

/-- The `for` loop of `collides` over the blocks of the shape, with its two
early `return true`. -/
def collidesLoop (board : Board) (ox oy : Int) : List Vec2I → Bool
  | [] => false
  | b :: rest =>
    let x := ox + b.x
    let y := oy + b.y
    if x < 0 ∨ x ≥ BOARD_COLS ∨ y < 0 ∨ y ≥ BOARD_ROWS then true
    else if board (idx x.toNat y.toNat) ≠ -1 then true
    else collidesLoop board ox oy rest

/-- `collides(g, pieceIdx, rot, ox, oy)`. -/
def collides (g : GameState) (pieceIdx rot : Nat) (ox oy : Int) : Bool :=
  collidesLoop g.board ox oy (shapeAt pieceIdx rot)

/-- The `for` loop of `lockPiece` over the blocks of the shape. -/
def lockLoop (kind : Nat) (ox oy : Int) : List Vec2I → Board → Board
  | [], board => board
  | b :: rest, board =>
    let x := ox + b.x
    let y := oy + b.y
    if y ≥ 0 ∧ y < BOARD_ROWS ∧ x ≥ 0 ∧ x < BOARD_COLS then
      lockLoop kind ox oy rest (board.set (idx x.toNat y.toNat) kind)
    else lockLoop kind ox oy rest board

/-- `lockPiece(g)`. -/
def lockPiece (g : GameState) : GameState :=
  { g with board :=
      lockLoop g.currentPieceIdx g.posX g.posY (shapeAt g.currentPieceIdx g.rotation) g.board }

/-- The inner scan of `clearLines`: `full` stays true iff no cell of row `y`
is `-1`. -/
def isRowFull (board : Board) (y : Nat) : Bool :=
  (List.range BOARD_COLS).all (fun x => board (idx x y) != -1)

/-- Body of the shift loop for one `yy`: row `yy` becomes row `yy - 1`. -/
def copyRowDown (board : Board) (yy : Nat) : Board :=
  (List.range BOARD_COLS).foldl (fun b x => b.set (idx x yy) (b (idx x (yy - 1)))) board

/-- The loop `for (int yy = y; yy > 0; --yy)` of `clearLines`. -/
def shiftRowsDown : Nat → Board → Board
  | 0, board => board
  | yy + 1, board => shiftRowsDown yy (copyRowDown board (yy + 1))

/-- The loop `for x: board[idx(x, 0)] = -1`. -/
def clearTopRow (board : Board) : Board :=
  (List.range BOARD_COLS).foldl (fun b x => b.set (idx x 0) (-1)) board

/-- One iteration of the outer loop of `clearLines` on `(board, cleared)`. -/
def clearLinesStep (st : Board × Nat) (y : Nat) : Board × Nat :=
  if isRowFull st.1 y then (clearTopRow (shiftRowsDown y st.1), st.2 + 1) else st

/-- The outer loop `for (int y = 0; y < BOARD_ROWS; ++y)` of `clearLines`. -/
def clearLinesLoop (board : Board) : Board × Nat :=
  (List.range BOARD_ROWS).foldl clearLinesStep (board, 0)

/-- The amount the `switch (cleared)` of `clearLines` adds to the score for a
count; 0 stands for the `default` case, which adds nothing. -/
def scoreDelta (cleared : Nat) : Int :=
  match cleared with
  | 1 => 40
  | 2 => 100
  | 3 => 300
  | 4 => 1200
  | _ => 0

/-- The values of a 32-bit `int`. -/
def InInt32 (v : Int) : Prop := -2147483648 ≤ v ∧ v ≤ 2147483647

instance (v : Int) : Decidable (InInt32 v) := by
  unfold InInt32; infer_instance

/-- The sum `a + b` of two `int` as the 32-bit addition yields it: reduced
modulo 2^32 to the range -2^31 .. 2^31 - 1. -/
def addInt32 (a b : Int) : Int := (a + b + 2147483648) % 4294967296 - 2147483648

/-- The `switch (cleared)` of `clearLines` on the score: `g.score += 40`,
`100`, `300`, `1200` for the counts 1 to 4, no statement in the `default`
case. -/
def lineScore (score : Int) (cleared : Nat) : Int :=
  match cleared with
  | 1 => addInt32 score 40
  | 2 => addInt32 score 100
  | 3 => addInt32 score 300
  | 4 => addInt32 score 1200
  | _ => score

/-- `clearLines(g)`: the updated state and the returned count. -/
def clearLines (g : GameState) : GameState × Nat :=
  let st := clearLinesLoop g.board
  ({ g with board := st.1, score := lineScore g.score st.2 }, st.2)

/-- `spawnPiece(g)`; `r` is the value returned by `std::rand()`. -/
def spawnPiece (g : GameState) (r : Nat) : GameState :=
  let g1 := { g with currentPieceIdx := r % 7, rotation := 0, posX := 3, posY := 0 }
  if collides g1 g1.currentPieceIdx g1.rotation g1.posX g1.posY then
    { g1 with gameOver := true }
  else g1

/-- The initialisation of `g` at the start of `main`. -/
def initState (r : Nat) : GameState :=
  { board := emptyBoard
    score := 0
    gameOver := false
    prevLeft := false, prevRight := false, prevDown := false
    prevUp := false, prevSpace := false, prevR := false
    currentPieceIdx := r % 7
    rotation := 0
    posX := 3
    posY := 0 }

/-- What one pass of the frame loop reads from outside: the six raw key
states, the values `std::rand()` would return (in `resetGame`, in the
`spawnPiece` of the hard drop), and one entry per iteration of the gravity
loop holding the `std::rand()` value for a spawn in that iteration. -/
structure FrameInput where
  left : Bool
  right : Bool
  up : Bool
  down : Bool
  space : Bool
  keyR : Bool
  randReset : Nat
  randDrop : Nat
  gravity : List Nat

/-- Lines 323-328 of `main`: left and right moves on a rising edge. -/
def moveStep (g : GameState) (left right : Bool) : GameState :=
  let g1 :=
    if left && !g.prevLeft then
      if !collides g g.currentPieceIdx g.rotation (g.posX - 1) g.posY then
        { g with posX := g.posX - 1 }
      else g
    else g
  if right && !g1.prevRight then
    if !collides g1 g1.currentPieceIdx g1.rotation (g1.posX + 1) g1.posY then
      { g1 with posX := g1.posX + 1 }
    else g1
  else g1

/-- Lines 331-340 of `main`: rotation with the left/right wall kick. -/
def rotateStep (g : GameState) (up : Bool) : GameState :=
  if up && !g.prevUp then
    let nextRot := (g.rotation + 1) % 4
    if !collides g g.currentPieceIdx nextRot g.posX g.posY then
      { g with rotation := nextRot }
    else if !collides g g.currentPieceIdx nextRot (g.posX - 1) g.posY then
      { g with posX := g.posX - 1, rotation := nextRot }
    else if !collides g g.currentPieceIdx nextRot (g.posX + 1) g.posY then
      { g with posX := g.posX + 1, rotation := nextRot }
    else g
  else g

/-- The loop `while (!collides(.., g.posY + 1)) { g.posY += 1; ++steps; }` of
the hard drop.  Each test of the loop condition uses one unit of fuel; the
result is `none` when the fuel runs out before the loop exits. -/
def dropLoop : Nat → GameState → Int → Option (GameState × Int)
  | 0, _, _ => none
  | fuel + 1, g, steps =>
    if !collides g g.currentPieceIdx g.rotation g.posX (g.posY + 1) then
      dropLoop fuel { g with posY := g.posY + 1 } (steps + 1)
    else some (g, steps)

/-- Lines 352-363 of `main`: the hard drop on a rising edge of space. -/
def hardDropStep (fuel : Nat) (g : GameState) (space : Bool) (r : Nat) : Option GameState :=
  if space && !g.prevSpace then
    match dropLoop fuel g 0 with
    | none => none
    | some (g1, steps) =>
      let g2 := { g1 with score := addInt32 g1.score steps }
      some (spawnPiece (clearLines (lockPiece g2)).1 r)
  else some g

/-- Body of the gravity loop (lines 368-375 of `main`). -/
def gravityTick (g : GameState) (r : Nat) : GameState :=
  if !collides g g.currentPieceIdx g.rotation g.posX (g.posY + 1) then
    { g with posY := g.posY + 1 }
  else spawnPiece (clearLines (lockPiece g)).1 r

/-- The gravity loop, one iteration per entry of the list. -/
def gravityLoop (g : GameState) (ticks : List Nat) : GameState :=
  ticks.foldl gravityTick g

/-- One pass of the `while (!glfwWindowShouldClose(window))` loop of `main`
(rendering left out). -/
def frame (fuel : Nat) (g : GameState) (f : FrameInput) : Option GameState :=
  if g.gameOver then
    let g1 := if f.keyR && !g.prevR then resetGame g f.randReset else g
    some { g1 with prevR := f.keyR }
  else
    let g1 := moveStep g f.left f.right
    let g2 := rotateStep g1 f.up
    match hardDropStep fuel g2 f.space f.randDrop with
    | none => none
    | some g3 =>
      let g4 := gravityLoop g3 f.gravity
      some { g4 with
        prevLeft := f.left, prevRight := f.right, prevDown := f.down
        prevUp := f.up, prevSpace := f.space, prevR := f.keyR }

/-- States the program can be in at the top of the frame loop. -/
inductive Reachable : GameState → Prop
  | init (r : Nat) : Reachable (initState r)
  | step {g g1 : GameState} (fuel : Nat) (f : FrameInput) :
      Reachable g → frame fuel g f = some g1 → Reachable g1

/-! ## Row view of the board, used to state what `clearLines` computes -/

/-- A row, given as the list of its cells, has no empty cell. -/
def rowIsFull (r : List Int) : Bool := r.all (fun v => v != -1)

/-- A row of `BOARD_COLS` empty cells. -/
def emptyRow : List Int := List.replicate BOARD_COLS (-1)

/-- Row `y` of the board, columns `0 .. BOARD_COLS - 1` from left to right. -/
def rowAt (b : Board) (y : Nat) : List Int :=
  (List.range BOARD_COLS).map (fun x => b (idx x y))

/-- The `BOARD_ROWS` rows of the board from top to bottom. -/
def rowsOf (b : Board) : List (List Int) := (List.range BOARD_ROWS).map (rowAt b)

/-- Number of full rows of a board. -/
def fullRowCount (b : Board) : Nat := ((List.range BOARD_ROWS).filter (isRowFull b)).length

/-- Batch removal as the specification words it: collect all full rows,
remove them in one batch, put as many empty rows on top; the count is the
number of rows removed. -/
def batchClear (rows : List (List Int)) : List (List Int) × Nat :=
  let n := (rows.filter rowIsFull).length
  (List.replicate n emptyRow ++ rows.filter (fun r => !rowIsFull r), n)

/-- One iteration of the outer loop of `clearLines` read on the list of rows:
a full row at position `y` is taken out and an empty row is put on top. -/
def rowsStep (st : List (List Int) × Nat) (y : Nat) : List (List Int) × Nat :=
  if rowIsFull (st.1.getD y []) then (emptyRow :: st.1.eraseIdx y, st.2 + 1) else st

/-- The block `c` placed at origin `(ox, oy)` lies inside the board. -/
def inBoard (ox oy : Int) (c : Vec2I) : Prop :=
  0 ≤ ox + c.x ∧ ox + c.x < BOARD_COLS ∧ 0 ≤ oy + c.y ∧ oy + c.y < BOARD_ROWS

instance (ox oy : Int) (c : Vec2I) : Decidable (inBoard ox oy c) := by
  unfold inBoard; infer_instance

/-- Array index of the block `c` placed at origin `(ox, oy)`. -/
def cellIdx (ox oy : Int) (c : Vec2I) : Nat := idx (ox + c.x).toNat (oy + c.y).toNat

/-! ## Concrete states used as instances -/

/-- A playing state whose board has rows 16..19 full (kind 0) and all else
empty. -/
def fourFullState : GameState :=
  { initState 0 with board := fun j => if 160 ≤ j ∧ j < 200 then 0 else -1 }

/-- A playing state whose board has row 19 full (kind 0) and all else empty. -/
def bottomFullState : GameState :=
  { initState 0 with board := fun j => if 190 ≤ j ∧ j < 200 then 0 else -1 }

/-- Well-formedness of the active piece: its kind and rotation index the
catalog, and while the game is not over it does not collide. -/
def PieceFits (g : GameState) : Prop :=
  g.currentPieceIdx < 7 ∧ g.rotation < 4 ∧
    (g.gameOver = false →
      collides g g.currentPieceIdx g.rotation g.posX g.posY = false)

/-- Column 5 after `k` upright I pieces were hard-dropped on the empty board:
piece number `k + 1` is locked at origin `(3, 16 - 4k)` in rotation 1. -/
def stackBoard : Nat → Board
  | 0 => emptyBoard
  | k + 1 => lockLoop 0 3 (16 - 4 * (k : Int)) (shapeAt 0 1) (stackBoard k)

/-- A playing state over `stackBoard k` with the I piece (kind 0) at column
origin 3; `held` is the stored state of the rotate and hard-drop keys. -/
def stackPiece (k rot : Nat) (y score : Int) (held : Bool) : GameState :=
  { board := stackBoard k, currentPieceIdx := 0, rotation := rot, posX := 3, posY := y
    score := score, gameOver := false
    prevLeft := false, prevRight := false, prevDown := false
    prevUp := held, prevSpace := held, prevR := false }

/-- A frame with the rotate and hard-drop keys down, no gravity iteration;
every `std::rand()` call returns 0 (the I piece). -/
def rotDropFrame : FrameInput :=
  { left := false, right := false, up := true, down := false, space := true, keyR := false
    randReset := 0, randDrop := 0, gravity := [] }

/-- A frame with no key down and no gravity iteration. -/
def idleFrame : FrameInput :=
  { left := false, right := false, up := false, down := false, space := false, keyR := false
    randReset := 0, randDrop := 0, gravity := [] }

/-- The state after four upright I pieces were hard-dropped in column 5 (rows
4..19 of that column filled): a fresh I piece at spawn, score 40, no key held. -/
def towerState : GameState := stackPiece 4 0 0 40 false

/-- A frame with the rotate and hard-drop keys down in which the gravity loop
runs once; every `std::rand()` call returns 0 (the I piece). -/
def dropTickFrame : FrameInput :=
  { left := false, right := false, up := true, down := false, space := true, keyR := false
    randReset := 0, randDrop := 0, gravity := [0] }

/-- The game-over state reached from `towerState` by one more rotate and hard
drop: column 5 is filled in rows 0..19, the spawned I piece collides, the
rotate and hard-drop keys are stored as held. -/
def overState : GameState := { stackPiece 5 0 0 40 true with gameOver := true }

/-- A frame with only the left key down and two gravity iterations due. -/
def leftTickFrame : FrameInput :=
  { left := true, right := false, up := false, down := false, space := false, keyR := false
    randReset := 0, randDrop := 0, gravity := [0, 0] }

/-- A frame with only the restart key down; `std::rand()` returns 9. -/
def restartFrame : FrameInput :=
  { left := false, right := false, up := false, down := false, space := false, keyR := true
    randReset := 9, randDrop := 0, gravity := [] }

/-! ## Geometry of the rotation states -/

/-- Quarter turn clockwise on the screen (y grows downwards): (x,y) to (-y,x). -/
def rotateCW (c : Vec2I) : Vec2I := ⟨-c.y, c.x⟩

/-- Quarter turn counter-clockwise on the screen: (x,y) to (y,-x). -/
def rotateCCW (c : Vec2I) : Vec2I := ⟨c.y, -c.x⟩

/-- The offset `c` moved by the vector `t`. -/
def translate (t c : Vec2I) : Vec2I := ⟨c.x + t.x, c.y + t.y⟩

/-- The cell set of `b` is the cell set of `a` moved by one vector. -/
def SameUpToTranslation (a b : List Vec2I) : Prop :=
  ∃ t : Vec2I, ∀ c, c ∈ b ↔ c ∈ a.map (translate t)

/-- Two lists of offsets hold the same cells. -/
def sameCells (a b : List Vec2I) : Bool :=
  a.all (fun c => decide (c ∈ b)) && b.all (fun c => decide (c ∈ a))

/-- Search for the vector of `SameUpToTranslation`: the first cell of `a` has
to land on a cell of `b`, which leaves one candidate per cell of `b`. -/
def translationCheck (a b : List Vec2I) : Bool :=
  match a with
  | [] => b.isEmpty
  | a0 :: _ => b.any (fun c => sameCells (a.map (translate ⟨c.x - a0.x, c.y - a0.y⟩)) b)

/-- A playing state in which a lock completes four rows: rows 16..19 hold
kind 1 in columns 1..9, every other cell is empty, and the I piece stands
upright (rotation 1, origin (-2,16)) in column 0, rows 16..19. -/
def fourGapState : GameState :=
  { initState 0 with
    board := fun j => if 160 ≤ j ∧ j < 200 ∧ j % 10 ≠ 0 then 1 else -1
    rotation := 1, posX := -2, posY := 16 }

/-- A playing state of the end-to-end scenario: row 19 holds kind 1 in
columns 1..9, every other cell is empty, and the I piece stands upright
(rotation 1, origin (-2,16)) in column 0, rows 16..19. -/
def gapState : GameState :=
  { initState 0 with
    board := fun j => if 191 ≤ j ∧ j < 200 then 1 else -1
    rotation := 1, posX := -2, posY := 16 }

/-! ## Piece catalog and `collides` -/

theorem idx_eq (x y : Nat) : idx x y = y * 10 + x := rfl

theorem set_apply (b : Board) (i : Nat) (v : Int) (j : Nat) :
    b.set i v j = if j = i then v else b j := rfl

theorem shapeAt_length : ∀ kind < 7, ∀ rot < 4, (shapeAt kind rot).length = 4 := by decide

theorem shapeAt_range : ∀ kind < 7, ∀ rot < 4, ∀ c ∈ shapeAt kind rot,
    0 ≤ c.x ∧ c.x ≤ 3 ∧ 0 ≤ c.y ∧ c.y ≤ 3 := by decide

theorem collidesLoop_iff (board : Board) (ox oy : Int) (l : List Vec2I) :
    collidesLoop board ox oy l = true ↔
      ∃ c ∈ l, (ox + c.x < 0 ∨ 10 ≤ ox + c.x ∨ oy + c.y < 0 ∨ 20 ≤ oy + c.y) ∨
        board (idx (ox + c.x).toNat (oy + c.y).toNat) ≠ -1 := by
  induction l with
  | nil => simp [collidesLoop]
  | cons b rest ih =>
    simp only [collidesLoop, List.mem_cons, exists_eq_or_imp]
    by_cases h1 : ox + b.x < 0 ∨ ox + b.x ≥ (BOARD_COLS : Int) ∨ oy + b.y < 0 ∨
        oy + b.y ≥ (BOARD_ROWS : Int)
    · simp only [h1, if_true, true_iff]
      left; left
      simpa using h1
    · rw [if_neg h1]
      by_cases h2 : board (idx (ox + b.x).toNat (oy + b.y).toNat) ≠ -1
      · rw [if_pos h2]
        simp only [true_iff]
        left; right; exact h2
      · rw [if_neg h2, ih]
        have h1' : ¬ (ox + b.x < 0 ∨ 10 ≤ ox + b.x ∨ oy + b.y < 0 ∨ 20 ≤ oy + b.y) := by
          simpa using h1
        simp only [h1', h2, false_or]

theorem collides_false_iff (g : GameState) (kind rot : Nat) (ox oy : Int) :
    collides g kind rot ox oy = false ↔
      ∀ c ∈ shapeAt kind rot, inBoard ox oy c ∧ g.board (cellIdx ox oy c) = -1 := by
  rw [← Bool.not_eq_true, collides, collidesLoop_iff]
  simp only [not_exists, not_and, not_or, inBoard, cellIdx, not_lt, not_le, ne_eq, not_not]
  constructor
  · intro h c hc
    obtain ⟨⟨h1, h2, h3, h4⟩, h5⟩ := h c hc
    exact ⟨⟨h1, by simpa using h2, h3, by simpa using h4⟩, h5⟩
  · intro h c hc
    obtain ⟨⟨h1, h2, h3, h4⟩, h5⟩ := h c hc
    exact ⟨⟨h1, by simpa using h2, h3, by simpa using h4⟩, h5⟩

/-- C2: for every board, kind in 0..6, rotation in 0..3 and integer origin,
the rotation state has 4 cells and `collides` is true exactly when one of
them, placed at the origin, has x outside [0,10) or y outside [0,20) or lies
on a board cell different from -1. -/
theorem collides_iff_cell_out_or_occupied (g : GameState) (kind rot : Nat) (ox oy : Int)
    (hk : kind < 7) (hr : rot < 4) :
    (shapeAt kind rot).length = 4 ∧
    (collides g kind rot ox oy = true ↔
      ∃ c ∈ shapeAt kind rot,
        (ox + c.x < 0 ∨ 10 ≤ ox + c.x ∨ oy + c.y < 0 ∨ 20 ≤ oy + c.y) ∨
          g.board (idx (ox + c.x).toNat (oy + c.y).toNat) ≠ -1) :=
  ⟨shapeAt_length kind hk rot hr, collidesLoop_iff g.board ox oy (shapeAt kind rot)⟩

/-- Instance of C2: the T piece in rotation 1 at origin (-1, 5) on the empty
board. -/
theorem collides_iff_cell_out_or_occupied_witness :
    (2 < 7 ∧ 1 < 4) ∧
    (shapeAt 2 1).length = 4 ∧
    (collides (initState 0) 2 1 (-1) 5 = true ↔
      ∃ c ∈ shapeAt 2 1,
        ((-1 : Int) + c.x < 0 ∨ 10 ≤ (-1 : Int) + c.x ∨ (5 : Int) + c.y < 0 ∨
            20 ≤ (5 : Int) + c.y) ∨
          (initState 0).board (idx ((-1 : Int) + c.x).toNat ((5 : Int) + c.y).toNat) ≠ -1) :=
  ⟨⟨by decide, by decide⟩,
    collides_iff_cell_out_or_occupied (initState 0) 2 1 (-1) 5 (by decide) (by decide)⟩

/-! ## `clearLines` -/

theorem copyFold_apply (yy : Nat) (hyy : 1 ≤ yy) (l : List Nat) :
    ∀ (b : Board) (j : Nat), (∀ x ∈ l, x < 10) →
      l.foldl (fun b x => b.set (idx x yy) (b (idx x (yy - 1)))) b j =
        if ∃ x ∈ l, j = idx x yy then b (j - 10) else b j := by
  induction l with
  | nil => intro b j _; simp
  | cons a t ih =>
    intro b j hl
    have ha : a < 10 := hl a (List.mem_cons_self a t)
    have ht : ∀ x ∈ t, x < 10 := fun x hx => hl x (List.mem_cons_of_mem a hx)
    rw [List.foldl_cons, ih _ j ht]
    simp only [set_apply, List.mem_cons, exists_eq_or_imp]
    by_cases h1 : ∃ x ∈ t, j = idx x yy
    · obtain ⟨x, hx, hj⟩ := h1
      have hx10 := ht x hx
      have hne : ¬ (j - 10 = idx a yy) := by
        simp only [idx_eq] at hj ⊢; omega
      have hex : ∃ x ∈ t, j = idx x yy := ⟨x, hx, hj⟩
      simp [hex, hne]
    · simp only [h1, if_false, or_false]
      by_cases h2 : j = idx a yy
      · simp only [h2, if_true]
        congr 1
        simp only [idx_eq]; omega
      · simp [h2]

theorem copyRowDown_apply (b : Board) (yy : Nat) (hyy : 1 ≤ yy) (j : Nat) :
    copyRowDown b yy j = if yy * 10 ≤ j ∧ j < yy * 10 + 10 then b (j - 10) else b j := by
  unfold copyRowDown
  rw [copyFold_apply yy hyy _ b j (fun x hx => List.mem_range.mp hx)]
  have : (∃ x ∈ List.range BOARD_COLS, j = idx x yy) ↔ (yy * 10 ≤ j ∧ j < yy * 10 + 10) := by
    constructor
    · rintro ⟨x, hx, rfl⟩
      have hx10 : x < 10 := List.mem_range.mp hx
      simp only [idx_eq]; omega
    · intro h
      have h10 : j - yy * 10 < 10 := by omega
      exact ⟨j - yy * 10, List.mem_range.mpr h10, by simp only [idx_eq]; omega⟩
  simp only [this]

theorem shiftRowsDown_apply : ∀ (y : Nat) (b : Board) (j : Nat),
    shiftRowsDown y b j = if 10 ≤ j ∧ j < (y + 1) * 10 then b (j - 10) else b j := by
  intro y
  induction y with
  | zero =>
    intro b j
    have : ¬ (10 ≤ j ∧ j < (0 + 1) * 10) := by omega
    rw [if_neg this]; rfl
  | succ y ih =>
    intro b j
    rw [shiftRowsDown, ih, copyRowDown_apply _ _ (by omega), copyRowDown_apply _ _ (by omega)]
    split_ifs <;> first | rfl | omega

theorem clearFold_apply (l : List Nat) : ∀ (b : Board) (j : Nat),
    l.foldl (fun b x => b.set (idx x 0) (-1)) b j = if j ∈ l then -1 else b j := by
  induction l with
  | nil => intro b j; simp
  | cons a t ih =>
    intro b j
    rw [List.foldl_cons, ih]
    simp only [set_apply, idx_eq, List.mem_cons, Nat.zero_mul, Nat.zero_add]
    split_ifs <;> simp_all

theorem clearTopRow_apply (b : Board) (j : Nat) :
    clearTopRow b j = if j < 10 then -1 else b j := by
  unfold clearTopRow
  rw [clearFold_apply]
  simp [List.mem_range]

theorem clearedBoard_apply (y : Nat) (b : Board) (j : Nat) :
    clearTopRow (shiftRowsDown y b) j =
      if j < 10 then -1 else if j < (y + 1) * 10 then b (j - 10) else b j := by
  rw [clearTopRow_apply, shiftRowsDown_apply]
  split_ifs <;> first | rfl | omega

theorem filter_split_length (L : List (List Int)) :
    (L.filter rowIsFull).length + (L.filter (fun r => !rowIsFull r)).length = L.length := by
  induction L with
  | nil => rfl
  | cons a t ih =>
    by_cases h : rowIsFull a = true
    · simp [List.filter_cons, h]; omega
    · simp [List.filter_cons, h]; omega

theorem rowsStep_fold (L : List (List Int)) : ∀ k, k ≤ L.length →
    (List.range k).foldl rowsStep (L, 0) =
      (List.replicate ((L.take k).filter rowIsFull).length emptyRow
          ++ (L.take k).filter (fun r => !rowIsFull r) ++ L.drop k,
        ((L.take k).filter rowIsFull).length) := by
  intro k
  induction k with
  | zero => intro _; simp
  | succ k ih =>
    intro hk
    have hk' : k < L.length := hk
    rw [List.range_succ, List.foldl_append, ih (Nat.le_of_lt hk')]
    simp only [List.foldl_cons, List.foldl_nil]
    have hlen : (List.replicate ((L.take k).filter rowIsFull).length emptyRow
          ++ (L.take k).filter (fun r => !rowIsFull r)).length = k := by
      have := filter_split_length (L.take k)
      simp only [List.length_append, List.length_replicate, List.length_take] at this ⊢
      omega
    have htake : L.take (k + 1) = L.take k ++ [L[k]] := by
      rw [List.take_succ, List.getElem?_eq_getElem hk']; rfl
    have hget : (List.replicate ((L.take k).filter rowIsFull).length emptyRow
          ++ (L.take k).filter (fun r => !rowIsFull r) ++ L.drop k).getD k [] = L[k] := by
      rw [List.getD_eq_getElem?_getD, List.getElem?_append_right (by omega), hlen]
      simp [hk']
    unfold rowsStep
    simp only [hget]
    by_cases hf : rowIsFull L[k] = true
    · rw [if_pos hf, List.eraseIdx_append_of_length_le (by omega), hlen]
      simp only [Nat.sub_self, htake, List.filter_append, List.filter_cons, hf,
        List.filter_nil, List.length_append, List.length_singleton, Bool.not_true,
        Bool.false_eq_true, if_false, if_true, List.append_nil]
      rw [List.drop_eq_getElem_cons hk', List.eraseIdx_cons_zero, List.replicate_succ]
      simp
    · rw [if_neg hf]
      simp only [htake, List.filter_append, List.filter_cons, hf,
        List.filter_nil, List.length_append, List.length_nil, Bool.not_true,
        if_false, List.append_nil, Nat.add_zero]
      rw [List.drop_eq_getElem_cons hk']
      simp [hf]

theorem rowAt_congr (b b1 : Board) (y y1 : Nat)
    (h : ∀ x, x < 10 → b (idx x y) = b1 (idx x y1)) : rowAt b y = rowAt b1 y1 := by
  unfold rowAt
  apply List.map_congr_left
  intro x hx
  exact h x (List.mem_range.mp hx)

theorem rowsOf_length (b : Board) : (rowsOf b).length = 20 := by
  simp [rowsOf]

theorem rowsOf_getElem (b : Board) (y : Nat) (h : y < (rowsOf b).length) :
    (rowsOf b)[y] = rowAt b y := by
  simp [rowsOf]

theorem rowsOf_getElem? (b : Board) (y : Nat) (hy : y < 20) :
    (rowsOf b)[y]? = some (rowAt b y) := by
  rw [List.getElem?_eq_getElem (by rw [rowsOf_length]; exact hy), rowsOf_getElem]

theorem rowsOf_getD (b : Board) (y : Nat) (hy : y < 20) :
    (rowsOf b).getD y [] = rowAt b y := by
  rw [List.getD_eq_getElem?_getD, List.getElem?_eq_getElem (by rw [rowsOf_length]; exact hy),
    rowsOf_getElem]
  rfl

theorem isRowFull_eq (b : Board) (y : Nat) : isRowFull b y = rowIsFull (rowAt b y) := by
  unfold isRowFull rowIsFull rowAt
  generalize List.range BOARD_COLS = l
  induction l with
  | nil => rfl
  | cons a t ih => simp only [List.all_cons, List.map_cons, ih]

theorem rowAt_empty (b : Board) (h : ∀ x, x < 10 → b (idx x 0) = -1) : rowAt b 0 = emptyRow := by
  unfold rowAt emptyRow
  apply List.ext_getElem
  · simp
  · intro i h1 h2
    simp only [List.length_map, List.length_range] at h1
    simp [h i h1]

theorem rowsOf_cleared (b : Board) (y : Nat) (hy : y < 20) :
    rowsOf (clearTopRow (shiftRowsDown y b)) = emptyRow :: (rowsOf b).eraseIdx y := by
  apply List.ext_getElem
  · rw [List.length_cons, List.length_eraseIdx, rowsOf_length, rowsOf_length, if_pos hy]
  · intro i h1 h2
    rw [rowsOf_getElem]
    cases i with
    | zero =>
      rw [List.getElem_cons_zero]
      apply rowAt_empty
      intro x hx
      rw [clearedBoard_apply, idx_eq]
      simp [hx]
    | succ i =>
      rw [List.getElem_cons_succ, List.getElem_eraseIdx]
      rw [rowsOf_length] at h1
      split
      · rw [rowsOf_getElem]
        apply rowAt_congr
        intro x hx
        rw [clearedBoard_apply, idx_eq, idx_eq]
        have e : (i + 1) * 10 + x - 10 = i * 10 + x := by omega
        rw [if_neg (by omega), if_pos (by omega), e]
      · rw [rowsOf_getElem]
        apply rowAt_congr
        intro x hx
        rw [clearedBoard_apply, idx_eq]
        rw [if_neg (by omega), if_neg (by omega)]

theorem clearLinesStep_rows (st : Board × Nat) (y : Nat) (hy : y < 20) :
    (rowsOf (clearLinesStep st y).1, (clearLinesStep st y).2) = rowsStep (rowsOf st.1, st.2) y := by
  unfold clearLinesStep rowsStep
  simp only [rowsOf_getD _ _ hy, ← isRowFull_eq]
  by_cases h : isRowFull st.1 y = true
  · simp only [h, if_true, rowsOf_cleared _ _ hy]
  · simp only [h, if_false]
    rfl

theorem clearLines_fold_rows (l : List Nat) : ∀ (st : Board × Nat), (∀ y ∈ l, y < 20) →
    (rowsOf (l.foldl clearLinesStep st).1, (l.foldl clearLinesStep st).2) =
      l.foldl rowsStep (rowsOf st.1, st.2) := by
  induction l with
  | nil => intro st _; rfl
  | cons a t ih =>
    intro st hl
    rw [List.foldl_cons, List.foldl_cons, ih _ (fun y hy => hl y (List.mem_cons_of_mem a hy)),
      clearLinesStep_rows _ _ (hl a (List.mem_cons_self a t))]

theorem clearLinesLoop_rows (b : Board) :
    rowsOf (clearLinesLoop b).1 = (batchClear (rowsOf b)).1 ∧
      (clearLinesLoop b).2 = (batchClear (rowsOf b)).2 := by
  have h := clearLines_fold_rows (List.range BOARD_ROWS) (b, 0)
    (fun y hy => List.mem_range.mp hy)
  have h2 := rowsStep_fold (rowsOf b) 20 (by rw [rowsOf_length])
  have h3 : (rowsOf b).take 20 = rowsOf b := by
    apply List.take_of_length_le; rw [rowsOf_length]
  have h4 : (rowsOf b).drop 20 = [] := by
    apply List.drop_of_length_le; rw [rowsOf_length]
  rw [h3, h4, List.append_nil] at h2
  rw [h2] at h
  simp only [Prod.mk.injEq] at h
  simp only [clearLinesLoop, batchClear]
  exact h

theorem fullRowCount_eq (b : Board) :
    fullRowCount b = ((rowsOf b).filter rowIsFull).length := by
  unfold fullRowCount rowsOf
  rw [List.filter_map, List.length_map]
  congr 1

theorem rowAt_length (b : Board) (y : Nat) : (rowAt b y).length = 10 := by
  simp [rowAt]

theorem rowAt_getElem (b : Board) (y x : Nat) (h : x < (rowAt b y).length) :
    (rowAt b y)[x] = b (idx x y) := by
  simp [rowAt]

theorem cell_eq_of_rowAt_eq (b b1 : Board) (y y1 x : Nat) (hx : x < 10)
    (h : rowAt b y = rowAt b1 y1) : b (idx x y) = b1 (idx x y1) := by
  have h1 : x < (rowAt b y).length := by rw [rowAt_length]; exact hx
  have h2 : x < (rowAt b1 y1).length := by rw [rowAt_length]; exact hx
  rw [← rowAt_getElem b y x h1, ← rowAt_getElem b1 y1 x h2]
  simp only [h]

theorem cell_eq_emptyRow (b : Board) (y x : Nat) (hx : x < 10)
    (h : rowAt b y = emptyRow) : b (idx x y) = -1 := by
  have h1 : x < (rowAt b y).length := by rw [rowAt_length]; exact hx
  rw [← rowAt_getElem b y x h1]
  simp only [h, emptyRow, List.getElem_replicate]

theorem emptyRow_not_full : rowIsFull emptyRow = false := by decide

theorem clearLines_board (g : GameState) :
    (clearLines g).1.board = (clearLinesLoop g.board).1 := by
  simp only [clearLines]

theorem clearLines_count (g : GameState) :
    (clearLines g).2 = (clearLinesLoop g.board).2 := by
  simp only [clearLines]

theorem addInt32_eq (a b : Int) (h : InInt32 (a + b)) : addInt32 a b = a + b := by
  unfold InInt32 at h
  unfold addInt32
  omega

theorem addInt32_inInt32 (a b : Int) : InInt32 (addInt32 a b) := by
  unfold InInt32 addInt32
  omega

/-- Past the largest `int` the 32-bit addition wraps: 2147483647 + 40 gives
-2147483609. -/
theorem addInt32_wraps_at_max : addInt32 2147483647 40 = -2147483609 := by decide

theorem lineScore_eq (score : Int) (n : Nat) (h : InInt32 (score + scoreDelta n)) :
    lineScore score n = score + scoreDelta n := by
  match n with
  | 0 => simp [lineScore, scoreDelta]
  | 1 => exact addInt32_eq score 40 h
  | 2 => exact addInt32_eq score 100 h
  | 3 => exact addInt32_eq score 300 h
  | 4 => exact addInt32_eq score 1200 h
  | k + 5 => simp [lineScore, scoreDelta]

theorem clearLines_score (g : GameState) :
    (clearLines g).1.score = lineScore g.score (clearLinesLoop g.board).2 := by
  simp only [clearLines]

/-- The list of rows determines exactly the 200 cells of the board. -/
theorem rowsOf_eq_iff (b b1 : Board) :
    rowsOf b = rowsOf b1 ↔ ∀ x, x < 10 → ∀ y, y < 20 → b (idx x y) = b1 (idx x y) := by
  constructor
  · intro h x hx y hy
    apply cell_eq_of_rowAt_eq _ _ _ _ _ hx
    have h1 := rowsOf_getElem? b y hy
    rw [h, rowsOf_getElem? b1 y hy] at h1
    exact (Option.some.inj h1).symm
  · intro h
    unfold rowsOf
    apply List.map_congr_left
    intro y hy
    exact rowAt_congr _ _ _ _ (fun x hx => h x hx y (List.mem_range.mp hy))

/-- C3: for every board the single forward pass of `clearLines` yields the
board of batch removal: with n the number of full rows of the input, the rows
of the output are n empty rows followed by the non-full rows of the input in
their original order, and the returned count is n. -/
theorem clearLines_refines_batch (g : GameState) :
    rowsOf (clearLines g).1.board = (batchClear (rowsOf g.board)).1 ∧
    (clearLines g).2 = (batchClear (rowsOf g.board)).2 ∧
    (clearLines g).2 = fullRowCount g.board ∧
    rowsOf (clearLines g).1.board =
      List.replicate (fullRowCount g.board) (List.replicate 10 (-1)) ++
        (rowsOf g.board).filter (fun r => !rowIsFull r) := by
  have h := clearLinesLoop_rows g.board
  rw [clearLines_board, clearLines_count, fullRowCount_eq]
  exact ⟨h.1, h.2, h.2, h.1⟩

/-- C5: for every board `clearLines` returns the number n of full rows of
the input and changes the score by exactly 40, 100, 300, 1200 for
n = 1, 2, 3, 4 and by 0 for n = 0 and for every n >= 5, provided the new
score is a value of the 32-bit `int` (the addition does not overflow). -/
theorem clearLines_score_delta (g : GameState)
    (hno : InInt32 (g.score + scoreDelta (fullRowCount g.board))) :
    (clearLines g).2 = fullRowCount g.board ∧
    (clearLines g).1.score - g.score =
      (if fullRowCount g.board = 1 then 40
       else if fullRowCount g.board = 2 then 100
       else if fullRowCount g.board = 3 then 300
       else if fullRowCount g.board = 4 then 1200
       else 0) := by
  have hc : (clearLinesLoop g.board).2 = fullRowCount g.board := by
    rw [fullRowCount_eq]; exact (clearLinesLoop_rows g.board).2
  rw [clearLines_score, clearLines_count, hc, lineScore_eq _ _ hno]
  refine ⟨rfl, ?_⟩
  generalize fullRowCount g.board = n
  match n with
  | 0 => simp [scoreDelta]
  | 1 => simp [scoreDelta]
  | 2 => simp [scoreDelta]
  | 3 => simp [scoreDelta]
  | 4 => simp [scoreDelta]
  | k + 5 => simp [scoreDelta]

/-- Instance of C5: a board whose rows 16..19 are full, score 0; the count is
4 and the score grows by 1200. -/
theorem clearLines_score_delta_witness :
    (InInt32 (fourFullState.score + scoreDelta (fullRowCount fourFullState.board)) ∧
      fullRowCount fourFullState.board = 4) ∧
    (clearLines fourFullState).2 = fullRowCount fourFullState.board ∧
    (clearLines fourFullState).1.score - fourFullState.score =
      (if fullRowCount fourFullState.board = 1 then 40
       else if fullRowCount fourFullState.board = 2 then 100
       else if fullRowCount fourFullState.board = 3 then 300
       else if fullRowCount fourFullState.board = 4 then 1200
       else 0) :=
  ⟨⟨by decide, by decide⟩, clearLines_score_delta fourFullState (by decide)⟩

theorem clearLines_fold_noop (l : List Nat) : ∀ (st : Board × Nat),
    (∀ y ∈ l, isRowFull st.1 y = false) → l.foldl clearLinesStep st = st := by
  induction l with
  | nil => intro st _; rfl
  | cons a t ih =>
    intro st h
    have ha : clearLinesStep st a = st := by
      unfold clearLinesStep
      rw [h a (List.mem_cons_self a t)]
      rfl
    rw [List.foldl_cons, ha]
    exact ih st (fun y hy => h y (List.mem_cons_of_mem a hy))

/-- C6: on a board with no full row `clearLines` returns 0, leaves the score
unchanged and leaves each of the 200 board cells unchanged. -/
theorem clearLines_no_full_row (g : GameState)
    (h : ∀ y, y < 20 → isRowFull g.board y = false) :
    (clearLines g).2 = 0 ∧ (clearLines g).1.score = g.score ∧
      ∀ i, i < 200 → (clearLines g).1.board i = g.board i := by
  have hl : clearLinesLoop g.board = (g.board, 0) := by
    unfold clearLinesLoop
    exact clearLines_fold_noop _ _ (fun y hy => h y (List.mem_range.mp hy))
  rw [clearLines_count, clearLines_score, clearLines_board, hl]
  exact ⟨rfl, rfl, fun _ _ => rfl⟩

/-- Instance of C6: the board with column 5 filled in rows 4..19. -/
theorem clearLines_no_full_row_witness :
    (∀ y, y < 20 → isRowFull towerState.board y = false) ∧
    (clearLines towerState).2 = 0 ∧ (clearLines towerState).1.score = towerState.score ∧
      ∀ i, i < 200 → (clearLines towerState).1.board i = towerState.board i :=
  ⟨by decide, clearLines_no_full_row towerState (by decide)⟩

theorem filter_eq_eraseIdx {α : Type} (p : α → Bool) : ∀ (L : List α) (r : Nat)
    (hr : r < L.length), p (L.get ⟨r, hr⟩) = false →
    (∀ i (hi : i < L.length), i ≠ r → p (L.get ⟨i, hi⟩) = true) →
    L.filter p = L.eraseIdx r := by
  intro L
  induction L with
  | nil => intro r hr; simp at hr
  | cons a t ih =>
    intro r hr h1 h2
    cases r with
    | zero =>
      have ha : p a = false := h1
      rw [List.filter_cons, ha, List.eraseIdx_cons_zero]
      simp only [Bool.false_eq_true, if_false]
      apply List.filter_eq_self.mpr
      intro x hx
      obtain ⟨i, hi, rfl⟩ := List.getElem_of_mem hx
      exact h2 (i + 1) (by simp only [List.length_cons]; omega) (by omega)
    | succ r =>
      have ha : p a = true := h2 0 (by simp) (by omega)
      rw [List.filter_cons, ha, List.eraseIdx_cons_succ]
      simp only [if_true]
      congr 1
      have hr' : r < t.length := by simp only [List.length_cons] at hr; omega
      apply ih r hr' h1
      intro i hi hne
      exact h2 (i + 1) (by simp only [List.length_cons]; omega) (by omega)

theorem rows_one_full (b : Board) (r : Nat) (hr : r < 20) (hfull : isRowFull b r = true)
    (hothers : ∀ y, y < 20 → y ≠ r → isRowFull b y = false) :
    (rowsOf b).filter (fun row => !rowIsFull row) = (rowsOf b).eraseIdx r := by
  apply filter_eq_eraseIdx _ _ r (by rw [rowsOf_length]; exact hr)
  · simp only [List.get_eq_getElem, rowsOf_getElem, ← isRowFull_eq, hfull]
    rfl
  · intro i hi hne
    rw [rowsOf_length] at hi
    simp only [List.get_eq_getElem, rowsOf_getElem, ← isRowFull_eq, hothers i hi hne]
    rfl

theorem clearLinesLoop_one_full_row (b : Board) (r : Nat) (hr : r < 20)
    (hfull : isRowFull b r = true)
    (hothers : ∀ y, y < 20 → y ≠ r → isRowFull b y = false) :
    (clearLinesLoop b).2 = 1 ∧
    (∀ x, x < 10 → (clearLinesLoop b).1 (idx x 0) = -1) ∧
    (∀ i, 1 ≤ i → i ≤ r → ∀ x, x < 10 →
      (clearLinesLoop b).1 (idx x i) = b (idx x (i - 1))) ∧
    (∀ i, r < i → i < 20 → ∀ x, x < 10 →
      (clearLinesLoop b).1 (idx x i) = b (idx x i)) := by
  have hnf := rows_one_full b r hr hfull hothers
  have hsplit := filter_split_length (rowsOf b)
  have hcount : ((rowsOf b).filter rowIsFull).length = 1 := by
    rw [hnf, List.length_eraseIdx, rowsOf_length, if_pos hr] at hsplit
    omega
  obtain ⟨hrows, hc⟩ := clearLinesLoop_rows b
  simp only [batchClear, hcount, hnf] at hrows hc
  have hrows' : rowsOf (clearLinesLoop b).1 = emptyRow :: (rowsOf b).eraseIdx r :=
    hrows
  have hrow : ∀ i, i < 20 → some (rowAt (clearLinesLoop b).1 i) =
      (emptyRow :: (rowsOf b).eraseIdx r)[i]? := by
    intro i hi
    rw [← rowsOf_getElem? _ i hi, hrows']
  refine ⟨hc, ?_, ?_, ?_⟩
  · intro x hx
    apply cell_eq_emptyRow _ _ _ hx
    have := hrow 0 (by omega)
    simpa using this
  · intro i h1 h2 x hx
    apply cell_eq_of_rowAt_eq _ _ _ _ _ hx
    obtain ⟨k, rfl⟩ : ∃ k, i = k + 1 := ⟨i - 1, by omega⟩
    have := hrow (k + 1) (by omega)
    rw [List.getElem?_cons_succ, List.getElem?_eraseIdx_of_lt _ _ _ (by omega),
      rowsOf_getElem? _ _ (by omega)] at this
    simpa using this
  · intro i h1 h2 x hx
    apply cell_eq_of_rowAt_eq _ _ _ _ _ hx
    obtain ⟨k, rfl⟩ : ∃ k, i = k + 1 := ⟨i - 1, by omega⟩
    have := hrow (k + 1) (by omega)
    rw [List.getElem?_cons_succ, List.getElem?_eraseIdx_of_ge _ _ _ (by omega),
      rowsOf_getElem? _ _ (by omega)] at this
    simpa using this

/-- C4: on a board whose only full row is row r, `clearLines` returns 1 and
adds exactly 40 to the score, provided score + 40 is a value of the 32-bit
`int` (the addition does not overflow); afterwards row 0 is empty, each row
i with 1 <= i <= r equals the input row i-1 and each row i > r equals the
input row i. -/
theorem clearLines_one_full_row (g : GameState) (r : Nat) (hr : r < 20)
    (hfull : isRowFull g.board r = true)
    (hothers : ∀ y, y < 20 → y ≠ r → isRowFull g.board y = false)
    (hno : InInt32 (g.score + 40)) :
    (clearLines g).2 = 1 ∧ (clearLines g).1.score = g.score + 40 ∧
    (∀ x, x < 10 → (clearLines g).1.board (idx x 0) = -1) ∧
    (∀ i, 1 ≤ i → i ≤ r → ∀ x, x < 10 →
      (clearLines g).1.board (idx x i) = g.board (idx x (i - 1))) ∧
    (∀ i, r < i → i < 20 → ∀ x, x < 10 →
      (clearLines g).1.board (idx x i) = g.board (idx x i)) := by
  obtain ⟨h1, h2, h3, h4⟩ := clearLinesLoop_one_full_row g.board r hr hfull hothers
  rw [clearLines_count, clearLines_score, clearLines_board, h1]
  exact ⟨rfl, addInt32_eq g.score 40 hno, h2, h3, h4⟩

/-- Instance of C4: the board whose row 19 is full and all other rows empty. -/
theorem clearLines_one_full_row_witness :
    (19 < 20 ∧ isRowFull bottomFullState.board 19 = true ∧
      (∀ y, y < 20 → y ≠ 19 → isRowFull bottomFullState.board y = false) ∧
      InInt32 (bottomFullState.score + 40)) ∧
    (clearLines bottomFullState).2 = 1 ∧
    (clearLines bottomFullState).1.score = bottomFullState.score + 40 ∧
    (∀ x, x < 10 → (clearLines bottomFullState).1.board (idx x 0) = -1) ∧
    (∀ i, 1 ≤ i → i ≤ 19 → ∀ x, x < 10 →
      (clearLines bottomFullState).1.board (idx x i) = bottomFullState.board (idx x (i - 1))) ∧
    (∀ i, 19 < i → i < 20 → ∀ x, x < 10 →
      (clearLines bottomFullState).1.board (idx x i) = bottomFullState.board (idx x i)) :=
  ⟨⟨by decide, by decide, by decide, by decide⟩,
    clearLines_one_full_row bottomFullState 19 (by decide) (by decide) (by decide) (by decide)⟩

/-! ## `lockPiece` -/

theorem lockLoop_apply (kind : Nat) (ox oy : Int) (l : List Vec2I) :
    ∀ (b : Board) (j : Nat), lockLoop kind ox oy l b j =
      if ∃ c ∈ l, inBoard ox oy c ∧ j = cellIdx ox oy c then (kind : Int) else b j := by
  induction l with
  | nil => intro b j; simp [lockLoop]
  | cons a t ih =>
    intro b j
    simp only [lockLoop, List.mem_cons, exists_eq_or_imp]
    by_cases ha : oy + a.y ≥ 0 ∧ oy + a.y < (BOARD_ROWS : Int) ∧ ox + a.x ≥ 0 ∧
        ox + a.x < (BOARD_COLS : Int)
    · have ha' : inBoard ox oy a := ⟨ha.2.2.1, ha.2.2.2, ha.1, ha.2.1⟩
      rw [if_pos ha, ih, set_apply]
      by_cases ht : ∃ c ∈ t, inBoard ox oy c ∧ j = cellIdx ox oy c
      · simp only [ht, or_true, if_true]
      · simp only [ht, or_false, if_false, ha', true_and]
        rfl
    · have ha' : ¬ inBoard ox oy a := fun h => ha ⟨h.2.2.1, h.2.2.2, h.1, h.2.1⟩
      rw [if_neg ha, ih]
      simp only [ha', false_and, false_or]

/-- C7: for every board, kind, rotation and integer origin, after `lockPiece`
every footprint cell inside the board holds the kind identifier and so is not
empty, every array cell that is not a footprint cell inside the board is
unchanged (footprint cells outside the board write nothing), and score,
piece, position, game-over flag and stored key flags are unchanged. -/
theorem lockPiece_frame (g : GameState) :
    (∀ c ∈ shapeAt g.currentPieceIdx g.rotation, inBoard g.posX g.posY c →
      (lockPiece g).board (cellIdx g.posX g.posY c) = (g.currentPieceIdx : Int) ∧
      (lockPiece g).board (cellIdx g.posX g.posY c) ≠ -1) ∧
    (∀ j, (¬ ∃ c ∈ shapeAt g.currentPieceIdx g.rotation,
        inBoard g.posX g.posY c ∧ j = cellIdx g.posX g.posY c) →
      (lockPiece g).board j = g.board j) ∧
    (lockPiece g).score = g.score ∧
    (lockPiece g).currentPieceIdx = g.currentPieceIdx ∧
    (lockPiece g).rotation = g.rotation ∧
    (lockPiece g).posX = g.posX ∧ (lockPiece g).posY = g.posY ∧
    (lockPiece g).gameOver = g.gameOver ∧
    (lockPiece g).prevLeft = g.prevLeft ∧ (lockPiece g).prevRight = g.prevRight ∧
    (lockPiece g).prevDown = g.prevDown ∧ (lockPiece g).prevUp = g.prevUp ∧
    (lockPiece g).prevSpace = g.prevSpace ∧ (lockPiece g).prevR = g.prevR := by
  refine ⟨?_, ?_, rfl, rfl, rfl, rfl, rfl, rfl, rfl, rfl, rfl, rfl, rfl, rfl⟩
  · intro c hc hin
    have h : (lockPiece g).board (cellIdx g.posX g.posY c) = (g.currentPieceIdx : Int) := by
      simp only [lockPiece, lockLoop_apply]
      rw [if_pos ⟨c, hc, hin, rfl⟩]
    refine ⟨h, ?_⟩
    rw [h]; omega
  · intro j hj
    simp only [lockPiece, lockLoop_apply]
    rw [if_neg hj]

/-! ## The frame loop: rotation, hard drop, gravity -/

/-- C8: on a rising edge of the rotate key, with n = (rotation + 1) mod 4,
the new rotation and posX are (n, posX + d) for the first d among 0, -1, +1
at which the piece in rotation n does not collide, and both are unchanged
when all three collide; every other field of the state, in particular posY,
the board and the score, is unchanged. -/
theorem rotateStep_first_free_kick (g : GameState) (hedge : g.prevUp = false) :
    (match [0, -1, 1].find? (fun d : Int =>
        !collides g g.currentPieceIdx ((g.rotation + 1) % 4) (g.posX + d) g.posY) with
      | some d => (rotateStep g true).rotation = (g.rotation + 1) % 4 ∧
          (rotateStep g true).posX = g.posX + d
      | none => (rotateStep g true).rotation = g.rotation ∧
          (rotateStep g true).posX = g.posX) ∧
    (rotateStep g true).posY = g.posY ∧
    (rotateStep g true).board = g.board ∧
    (rotateStep g true).score = g.score ∧
    (rotateStep g true).currentPieceIdx = g.currentPieceIdx ∧
    (rotateStep g true).gameOver = g.gameOver := by
  unfold rotateStep
  simp only [hedge, Bool.not_false, Bool.and_self, if_true, List.find?_cons, List.find?_nil,
    Int.add_zero]
  cases h0 : collides g g.currentPieceIdx ((g.rotation + 1) % 4) g.posX g.posY
  · simp
  · cases h1 : collides g g.currentPieceIdx ((g.rotation + 1) % 4) (g.posX + -1) g.posY
    · have h1' : collides g g.currentPieceIdx ((g.rotation + 1) % 4) (g.posX - 1) g.posY
          = false := h1
      simp [h1']
      rfl
    · have h1' : collides g g.currentPieceIdx ((g.rotation + 1) % 4) (g.posX - 1) g.posY
          = true := h1
      cases h2 : collides g g.currentPieceIdx ((g.rotation + 1) % 4) (g.posX + 1) g.posY
      · simp [h1']
      · simp [h1']

/-- Instance of C8: the I piece at spawn above the filled column 5. -/
theorem rotateStep_first_free_kick_witness :
    towerState.prevUp = false ∧
    (match [0, -1, 1].find? (fun d : Int =>
        !collides towerState towerState.currentPieceIdx
          ((towerState.rotation + 1) % 4) (towerState.posX + d) towerState.posY) with
      | some d => (rotateStep towerState true).rotation = (towerState.rotation + 1) % 4 ∧
          (rotateStep towerState true).posX = towerState.posX + d
      | none => (rotateStep towerState true).rotation = towerState.rotation ∧
          (rotateStep towerState true).posX = towerState.posX) ∧
    (rotateStep towerState true).posY = towerState.posY ∧
    (rotateStep towerState true).board = towerState.board ∧
    (rotateStep towerState true).score = towerState.score ∧
    (rotateStep towerState true).currentPieceIdx = towerState.currentPieceIdx ∧
    (rotateStep towerState true).gameOver = towerState.gameOver :=
  ⟨rfl, rotateStep_first_free_kick towerState rfl⟩

theorem collides_false_posY_range (g : GameState) (kind rot : Nat) (ox oy : Int)
    (hk : kind < 7) (hr : rot < 4) (h : collides g kind rot ox oy = false) :
    -3 ≤ oy ∧ oy ≤ 19 := by
  rw [collides_false_iff] at h
  have hlen := shapeAt_length kind hk rot hr
  match hs : shapeAt kind rot with
  | [] => rw [hs] at hlen; simp at hlen
  | c :: t =>
    have hc : c ∈ shapeAt kind rot := by rw [hs]; exact List.mem_cons_self c t
    obtain ⟨⟨_, _, h3, h4⟩, _⟩ := h c hc
    obtain ⟨_, _, h7, h8⟩ := shapeAt_range kind hk rot hr c hc
    have h4' : oy + c.y < 20 := by simpa using h4
    constructor <;> omega

theorem dropLoop_spec (n : Nat) : ∀ (fuel : Nat) (g : GameState) (steps : Int),
    (collides g g.currentPieceIdx g.rotation g.posX (g.posY + 1) = false → 19 - g.posY ≤ n) →
    g.currentPieceIdx < 7 → g.rotation < 4 → n < fuel →
    ∃ k : Nat,
      dropLoop fuel g steps = some ({ g with posY := g.posY + k }, steps + k) ∧
      (∀ j : Nat, 1 ≤ j → j ≤ k →
        collides g g.currentPieceIdx g.rotation g.posX (g.posY + j) = false) ∧
      collides g g.currentPieceIdx g.rotation g.posX (g.posY + k + 1) = true := by
  induction n with
  | zero =>
    intro fuel g steps hm hk hr hfuel
    obtain ⟨f, rfl⟩ : ∃ f, fuel = f + 1 := ⟨fuel - 1, by omega⟩
    cases hc : collides g g.currentPieceIdx g.rotation g.posX (g.posY + 1)
    · have h1 := hm hc
      have h2 := collides_false_posY_range g _ _ _ _ hk hr hc
      omega
    · refine ⟨0, ?_, ?_, ?_⟩
      · simp [dropLoop, hc]
      · intro j h1 h2; omega
      · simpa using hc
  | succ n ih =>
    intro fuel g steps hm hk hr hfuel
    obtain ⟨f, rfl⟩ : ∃ f, fuel = f + 1 := ⟨fuel - 1, by omega⟩
    cases hc : collides g g.currentPieceIdx g.rotation g.posX (g.posY + 1)
    · have h1 := hm hc
      obtain ⟨k, hk1, hk2, hk3⟩ := ih f { g with posY := g.posY + 1 } (steps + 1)
        (by
          intro hc2
          have h2 := collides_false_posY_range { g with posY := g.posY + 1 } _ _ _ _ hk hr hc2
          show 19 - (g.posY + 1) ≤ (n : Int)
          omega)
        hk hr (by omega)
      refine ⟨k + 1, ?_, ?_, ?_⟩
      · simp only [dropLoop, hc, Bool.not_false, if_true, hk1]
        simp only [Nat.cast_add, Nat.cast_one, Option.some.injEq, Prod.mk.injEq]
        constructor
        · congr 1; omega
        · omega
      · intro j h1 h2
        by_cases hj : j = 1
        · subst hj; exact hc
        · obtain ⟨i, rfl⟩ : ∃ i, j = i + 1 := ⟨j - 1, by omega⟩
          have := hk2 i (by omega) (by omega)
          have e : g.posY + ((i + 1 : Nat) : Int) = g.posY + 1 + (i : Int) := by
            push_cast; omega
          rw [e]; exact this
      · have e : g.posY + ((k + 1 : Nat) : Int) + 1 = g.posY + 1 + (k : Int) + 1 := by
          push_cast; omega
        rw [e]; exact hk3
    · refine ⟨0, ?_, ?_, ?_⟩
      · simp [dropLoop, hc]
      · intro j h1 h2; omega
      · simpa using hc

/-- C9: on a rising edge of the hard-drop key, for a well-formed piece, the
drop loop terminates (any fuel of at least 24 loop tests gives the same
result) after exactly k steps, where the piece is free at each of
posY+1 .. posY+k and collides at posY+k+1; posX and rotation are unchanged,
the score is raised by exactly k before `clearLines` adds its own score, and
the piece is locked at origin (posX, posY+k), where it does not collide.
Here k is at most 19, and the score and the score plus 19 are assumed to be
values of the 32-bit `int`, so that `g.score += steps` does not overflow. -/
theorem hardDrop_lands_at_lowest (g : GameState) (r fuel : Nat)
    (hk : g.currentPieceIdx < 7) (hr : g.rotation < 4)
    (hfree : collides g g.currentPieceIdx g.rotation g.posX g.posY = false)
    (hedge : g.prevSpace = false) (hfuel : 24 ≤ fuel)
    (hlo : InInt32 g.score) (hhi : InInt32 (g.score + 19)) :
    ∃ k : Nat, k ≤ 19 ∧
      (∀ j : Nat, 1 ≤ j → j ≤ k →
        collides g g.currentPieceIdx g.rotation g.posX (g.posY + j) = false) ∧
      collides g g.currentPieceIdx g.rotation g.posX (g.posY + k + 1) = true ∧
      dropLoop fuel g 0 = some ({ g with posY := g.posY + k }, (k : Int)) ∧
      hardDropStep fuel g true r =
        some (spawnPiece
          (clearLines (lockPiece { g with posY := g.posY + k, score := g.score + k })).1 r) ∧
      (lockPiece { g with posY := g.posY + k, score := g.score + k }).score = g.score + k ∧
      (lockPiece { g with posY := g.posY + k, score := g.score + k }).board =
        lockLoop g.currentPieceIdx g.posX (g.posY + k)
          (shapeAt g.currentPieceIdx g.rotation) g.board ∧
      collides g g.currentPieceIdx g.rotation g.posX (g.posY + k) = false := by
  obtain ⟨k, h1, h2, h3⟩ := dropLoop_spec 23 fuel g 0
    (by
      intro hc
      have := collides_false_posY_range g _ _ _ _ hk hr hc
      omega)
    hk hr (by omega)
  rw [Int.zero_add] at h1
  have hland : collides g g.currentPieceIdx g.rotation g.posX (g.posY + k) = false := by
    by_cases hk0 : k = 0
    · subst hk0; simpa using hfree
    · exact h2 k (by omega) (le_refl k)
  have hk19 : k ≤ 19 := by
    have hlen := shapeAt_length _ hk _ hr
    match hs : shapeAt g.currentPieceIdx g.rotation with
    | [] => rw [hs] at hlen; simp at hlen
    | c :: t =>
      have hc : c ∈ shapeAt g.currentPieceIdx g.rotation := by
        rw [hs]; exact List.mem_cons_self c t
      obtain ⟨⟨_, _, h5, _⟩, _⟩ := (collides_false_iff g _ _ _ _).mp hfree c hc
      obtain ⟨⟨_, _, _, h6⟩, _⟩ := (collides_false_iff g _ _ _ _).mp hland c hc
      have h6' : g.posY + k + c.y < 20 := by simpa using h6
      omega
  have hsum : addInt32 g.score k = g.score + k := by
    apply addInt32_eq
    unfold InInt32 at hlo hhi ⊢
    omega
  refine ⟨k, hk19, h2, h3, h1, ?_, rfl, rfl, hland⟩
  simp only [hardDropStep, hedge, Bool.not_false, Bool.and_self, if_true, h1, hsum]

/-- Instance of C9: the I piece at spawn on the empty board, fuel 24. -/
theorem hardDrop_lands_at_lowest_witness :
    ((initState 0).currentPieceIdx < 7 ∧ (initState 0).rotation < 4 ∧
      collides (initState 0) (initState 0).currentPieceIdx (initState 0).rotation
        (initState 0).posX (initState 0).posY = false ∧
      (initState 0).prevSpace = false ∧ 24 ≤ 24 ∧
      InInt32 (initState 0).score ∧ InInt32 ((initState 0).score + 19)) ∧
    ∃ k : Nat, k ≤ 19 ∧
      (∀ j : Nat, 1 ≤ j → j ≤ k →
        collides (initState 0) (initState 0).currentPieceIdx (initState 0).rotation
          (initState 0).posX ((initState 0).posY + j) = false) ∧
      collides (initState 0) (initState 0).currentPieceIdx (initState 0).rotation
        (initState 0).posX ((initState 0).posY + k + 1) = true ∧
      dropLoop 24 (initState 0) 0 =
        some ({ initState 0 with posY := (initState 0).posY + k }, (k : Int)) ∧
      hardDropStep 24 (initState 0) true 5 =
        some (spawnPiece
          (clearLines (lockPiece { initState 0 with
            posY := (initState 0).posY + k, score := (initState 0).score + k })).1 5) ∧
      (lockPiece { initState 0 with
          posY := (initState 0).posY + k, score := (initState 0).score + k }).score =
        (initState 0).score + k ∧
      (lockPiece { initState 0 with
          posY := (initState 0).posY + k, score := (initState 0).score + k }).board =
        lockLoop (initState 0).currentPieceIdx (initState 0).posX ((initState 0).posY + k)
          (shapeAt (initState 0).currentPieceIdx (initState 0).rotation) (initState 0).board ∧
      collides (initState 0) (initState 0).currentPieceIdx (initState 0).rotation
        (initState 0).posX ((initState 0).posY + k) = false :=
  ⟨⟨by decide, by decide, by decide, rfl, by decide, by decide, by decide⟩,
    hardDrop_lands_at_lowest (initState 0) 5 24 (by decide) (by decide) (by decide) rfl
      (by decide) (by decide) (by decide)⟩

/-! ## The invariant of the frame loop -/

theorem spawn_free_on_empty : ∀ kind < 7, collidesLoop emptyBoard 3 0 (shapeAt kind 0) = false := by
  decide

theorem initState_fits (r : Nat) : PieceFits (initState r) :=
  ⟨Nat.mod_lt r (by decide), Nat.zero_lt_succ 3,
    fun _ => spawn_free_on_empty (r % 7) (Nat.mod_lt r (by decide))⟩

theorem resetGame_fits (g : GameState) (r : Nat) : PieceFits (resetGame g r) :=
  ⟨Nat.mod_lt r (by decide), Nat.zero_lt_succ 3,
    fun _ => spawn_free_on_empty (r % 7) (Nat.mod_lt r (by decide))⟩

theorem spawnPiece_fits (g : GameState) (r : Nat) : PieceFits (spawnPiece g r) := by
  unfold spawnPiece
  cases hc : collides { g with currentPieceIdx := r % 7, rotation := 0, posX := 3, posY := 0 }
      (r % 7) 0 3 0
  · simp only [hc, Bool.false_eq_true, if_false]
    exact ⟨Nat.mod_lt r (by decide), Nat.zero_lt_succ 3, fun _ => hc⟩
  · simp only [hc, if_true]
    exact ⟨Nat.mod_lt r (by decide), Nat.zero_lt_succ 3, fun h => by simp at h⟩

theorem moveStep_fits (g : GameState) (left right : Bool) (h : PieceFits g) :
    PieceFits (moveStep g left right) := by
  have hleft : PieceFits
      (if left && !g.prevLeft then
        if !collides g g.currentPieceIdx g.rotation (g.posX - 1) g.posY then
          { g with posX := g.posX - 1 }
        else g
      else g) := by
    split
    · split
      · rename_i h2
        exact ⟨h.1, h.2.1, fun _ => by simpa using h2⟩
      · exact h
    · exact h
  unfold moveStep
  generalize (if left && !g.prevLeft then
        if !collides g g.currentPieceIdx g.rotation (g.posX - 1) g.posY then
          { g with posX := g.posX - 1 }
        else g
      else g) = g1 at hleft
  simp only []
  split
  · split
    · rename_i h2
      exact ⟨hleft.1, hleft.2.1, fun _ => by simpa using h2⟩
    · exact hleft
  · exact hleft

theorem rotateStep_fits (g : GameState) (up : Bool) (h : PieceFits g) :
    PieceFits (rotateStep g up) := by
  have hn : (g.rotation + 1) % 4 < 4 := Nat.mod_lt _ (by decide)
  unfold rotateStep
  simp only []
  split
  · split
    · rename_i h2
      exact ⟨h.1, hn, fun _ => by simpa using h2⟩
    · split
      · rename_i h2
        exact ⟨h.1, hn, fun _ => by simpa using h2⟩
      · split
        · rename_i h2
          exact ⟨h.1, hn, fun _ => by simpa using h2⟩
        · exact h
  · exact h

theorem hardDropStep_fits (fuel : Nat) (g g1 : GameState) (space : Bool) (r : Nat)
    (h : PieceFits g) (hs : hardDropStep fuel g space r = some g1) : PieceFits g1 := by
  unfold hardDropStep at hs
  split at hs
  · split at hs
    · simp at hs
    · simp only [Option.some.injEq] at hs
      rw [← hs]
      exact spawnPiece_fits _ _
  · simp only [Option.some.injEq] at hs
    rw [← hs]; exact h

theorem gravityTick_fits (g : GameState) (r : Nat) (h : PieceFits g) :
    PieceFits (gravityTick g r) := by
  unfold gravityTick
  split
  · rename_i h2
    exact ⟨h.1, h.2.1, fun _ => by simpa using h2⟩
  · exact spawnPiece_fits _ _

theorem gravityLoop_fits (ticks : List Nat) : ∀ (g : GameState), PieceFits g →
    PieceFits (gravityLoop g ticks) := by
  induction ticks with
  | nil => intro g h; exact h
  | cons r t ih =>
    intro g h
    exact ih _ (gravityTick_fits g r h)

theorem frame_fits (fuel : Nat) (g g1 : GameState) (f : FrameInput)
    (h : PieceFits g) (hf : frame fuel g f = some g1) : PieceFits g1 := by
  unfold frame at hf
  split at hf
  · simp only [Option.some.injEq] at hf
    rw [← hf]
    split
    · exact resetGame_fits g f.randReset
    · exact h
  · simp only [] at hf
    split at hf
    · simp at hf
    · rename_i g3 h3
      simp only [Option.some.injEq] at hf
      rw [← hf]
      exact gravityLoop_fits f.gravity g3
        (hardDropStep_fits fuel _ g3 f.space f.randDrop
          (rotateStep_fits _ f.up (moveStep_fits g f.left f.right h)) h3)

theorem reachable_fits (g : GameState) (h : Reachable g) : PieceFits g := by
  induction h with
  | init r => exact initState_fits r
  | step fuel f _ hf ih => exact frame_fits fuel _ _ f ih hf

theorem hardDropStep_returns (fuel : Nat) (g : GameState) (space : Bool) (r : Nat)
    (h : PieceFits g) (hfuel : 24 ≤ fuel) : ∃ g1, hardDropStep fuel g space r = some g1 := by
  unfold hardDropStep
  split
  · obtain ⟨k, h1, _, _⟩ := dropLoop_spec 23 fuel g 0
      (by
        intro hc
        have := collides_false_posY_range g _ _ _ _ h.1 h.2.1 hc
        omega)
      h.1 h.2.1 (by omega)
    rw [h1]
    exact ⟨_, rfl⟩
  · exact ⟨g, rfl⟩

theorem frame_returns (fuel : Nat) (g : GameState) (f : FrameInput)
    (h : PieceFits g) (hfuel : 24 ≤ fuel) : ∃ g1, frame fuel g f = some g1 := by
  unfold frame
  split
  · exact ⟨_, rfl⟩
  · obtain ⟨g3, h3⟩ := hardDropStep_returns fuel (rotateStep (moveStep g f.left f.right) f.up)
      f.space f.randDrop (rotateStep_fits _ f.up (moveStep_fits g f.left f.right h)) hfuel
    simp only [h3]
    exact ⟨_, rfl⟩

/-- C1: in every state reachable from the initial state by frame updates
(any key states, any number of gravity ticks, any spawned kinds, restarts
included), if the game is not over then the active piece has 4 cells, each
inside [0,10)x[0,20) and on an empty board cell, so `collides` is false. -/
theorem reachable_active_piece_free (g : GameState) (h : Reachable g)
    (hplay : g.gameOver = false) :
    (shapeAt g.currentPieceIdx g.rotation).length = 4 ∧
    (∀ c ∈ shapeAt g.currentPieceIdx g.rotation,
      0 ≤ g.posX + c.x ∧ g.posX + c.x < 10 ∧ 0 ≤ g.posY + c.y ∧ g.posY + c.y < 20 ∧
        g.board (idx (g.posX + c.x).toNat (g.posY + c.y).toNat) = -1) ∧
    collides g g.currentPieceIdx g.rotation g.posX g.posY = false := by
  obtain ⟨hk, hr, hc⟩ := reachable_fits g h
  have hfree := hc hplay
  refine ⟨shapeAt_length _ hk _ hr, ?_, hfree⟩
  intro c hcm
  obtain ⟨⟨h1, h2, h3, h4⟩, h5⟩ := (collides_false_iff g _ _ _ _).mp hfree c hcm
  exact ⟨h1, by simpa using h2, h3, by simpa using h4, h5⟩

theorem clearLines_noop (g : GameState) (h : ∀ y, y < 20 → isRowFull g.board y = false) :
    (clearLines g).1 = g := by
  have hl : clearLinesLoop g.board = (g.board, 0) := by
    unfold clearLinesLoop
    exact clearLines_fold_noop _ _ (fun y hy => h y (List.mem_range.mp hy))
  simp only [clearLines, hl, lineScore]

theorem clearLines_count_noop (g : GameState)
    (h : ∀ y, y < 20 → isRowFull g.board y = false) : (clearLines g).2 = 0 := by
  have hl : clearLinesLoop g.board = (g.board, 0) := by
    unfold clearLinesLoop
    exact clearLines_fold_noop _ _ (fun y hy => h y (List.mem_range.mp hy))
  rw [clearLines_count, hl]

theorem hardDropStep_blocked (fuel : Nat) (g : GameState) (r : Nat)
    (hc : collides g g.currentPieceIdx g.rotation g.posX (g.posY + 1) = true)
    (he : g.prevSpace = false) (hscore : InInt32 g.score)
    (h : ∀ y, y < 20 → isRowFull (lockPiece g).board y = false) :
    hardDropStep (fuel + 1) g true r = some (spawnPiece (lockPiece g) r) := by
  have h0 : addInt32 g.score 0 = g.score := by
    rw [addInt32_eq _ _ (by rw [Int.add_zero]; exact hscore), Int.add_zero]
  have hg : { g with score := addInt32 g.score 0 } = g := by rw [h0]
  have hd : dropLoop (fuel + 1) g 0 = some (g, 0) := by
    simp only [dropLoop, hc, Bool.not_true, Bool.false_eq_true, if_false]
  unfold hardDropStep
  rw [he, hd]
  simp only [Bool.not_false, Bool.and_self, if_true]
  rw [hg, clearLines_noop _ h]

theorem gravityTick_blocked (g : GameState) (r : Nat)
    (hc : collides g g.currentPieceIdx g.rotation g.posX (g.posY + 1) = true)
    (h : ∀ y, y < 20 → isRowFull (lockPiece g).board y = false) :
    gravityTick g r = spawnPiece (lockPiece g) r := by
  simp only [gravityTick, hc, Bool.not_true, Bool.false_eq_true, if_false, clearLines_noop _ h]

/-! ## A play that ends the game, and the gravity loop after it -/

theorem dropLoop_steps (n : Nat) : ∀ (fuel : Nat) (g : GameState) (s : Int),
    (∀ j, j < n →
      collides g g.currentPieceIdx g.rotation g.posX (g.posY + j + 1) = false) →
    collides g g.currentPieceIdx g.rotation g.posX (g.posY + n + 1) = true →
    n < fuel →
    dropLoop fuel g s = some ({ g with posY := g.posY + n }, s + n) := by
  induction n with
  | zero =>
    intro fuel g s _ hb hf
    obtain ⟨f, rfl⟩ : ∃ f, fuel = f + 1 := ⟨fuel - 1, by omega⟩
    have hb' : collides g g.currentPieceIdx g.rotation g.posX (g.posY + 1) = true := by
      simpa using hb
    simp [dropLoop, hb']
  | succ n ih =>
    intro fuel g s hfree hb hf
    obtain ⟨f, rfl⟩ : ∃ f, fuel = f + 1 := ⟨fuel - 1, by omega⟩
    have h0 : collides g g.currentPieceIdx g.rotation g.posX (g.posY + 1) = false := by
      simpa using hfree 0 (by omega)
    have hrec := ih f { g with posY := g.posY + 1 } (s + 1)
      (by
        intro j hj
        have := hfree (j + 1) (by omega)
        have e : g.posY + ((j + 1 : Nat) : Int) + 1 = g.posY + 1 + (j : Int) + 1 := by
          push_cast; omega
        rw [e] at this; exact this)
      (by
        have e : g.posY + ((n + 1 : Nat) : Int) + 1 = g.posY + 1 + (n : Int) + 1 := by
          push_cast; omega
        rw [e] at hb; exact hb)
      (by omega)
    simp only [dropLoop, h0, Bool.not_false, if_true, hrec]
    simp only [Nat.cast_add, Nat.cast_one, Option.some.injEq, Prod.mk.injEq]
    constructor
    · congr 1; omega
    · omega

theorem stack_drop_of (k n : Nat) (s : Int) (hn : n < 24)
    (hb : stackBoard (k + 1) = lockLoop 0 3 (0 + (n : Int)) (shapeAt 0 1) (stackBoard k))
    (h1 : collidesLoop (stackBoard k) 3 0 (shapeAt 0 1) = false)
    (h2 : ∀ j, j < n → collidesLoop (stackBoard k) 3 (0 + j + 1) (shapeAt 0 1) = false)
    (h3 : collidesLoop (stackBoard k) 3 (0 + n + 1) (shapeAt 0 1) = true)
    (h4 : ∀ y, y < 20 → isRowFull (stackBoard (k + 1)) y = false)
    (h5 : collidesLoop (stackBoard (k + 1)) 3 0 (shapeAt 0 0) = false)
    (hsc : InInt32 (s + (0 + n))) :
    frame 24 (stackPiece k 0 0 s false) rotDropFrame =
      some (stackPiece (k + 1) 0 0 (s + (0 + n)) true) := by
  have hm : moveStep (stackPiece k 0 0 s false) false false = stackPiece k 0 0 s false := rfl
  have hr : rotateStep (stackPiece k 0 0 s false) true = stackPiece k 1 0 s false := by
    have e : collides (stackPiece k 0 0 s false) (stackPiece k 0 0 s false).currentPieceIdx
        (((stackPiece k 0 0 s false).rotation + 1) % 4) (stackPiece k 0 0 s false).posX
        (stackPiece k 0 0 s false).posY = false := h1
    have e2 : (stackPiece k 0 0 s false).prevUp = false := rfl
    simp only [rotateStep, e, e2, Bool.not_false, Bool.and_self, if_true]
    rfl
  have hd : dropLoop 24 (stackPiece k 1 0 s false) 0 =
      some (stackPiece k 1 ((0 : Int) + (n : Int)) s false, (0 : Int) + (n : Int)) :=
    dropLoop_steps n 24 (stackPiece k 1 0 s false) 0 h2 h3 hn
  have hl : lockPiece { stackPiece k 1 ((0 : Int) + (n : Int)) s false with
      score := addInt32 (stackPiece k 1 ((0 : Int) + (n : Int)) s false).score
        ((0 : Int) + (n : Int)) } =
      stackPiece (k + 1) 1 ((0 : Int) + (n : Int)) (s + (0 + n)) false := by
    simp only [lockPiece, stackPiece, hb, addInt32_eq _ _ hsc]
  have hc : (clearLines (stackPiece (k + 1) 1 ((0 : Int) + (n : Int)) (s + (0 + n)) false)).1 =
      stackPiece (k + 1) 1 ((0 : Int) + (n : Int)) (s + (0 + n)) false :=
    clearLines_noop _ h4
  have hs : spawnPiece (stackPiece (k + 1) 1 ((0 : Int) + (n : Int)) (s + (0 + n)) false) 0 =
      stackPiece (k + 1) 0 0 (s + (0 + n)) false := by
    have e : collides { stackPiece (k + 1) 1 ((0 : Int) + (n : Int)) (s + (0 + n)) false with
        currentPieceIdx := 0 % 7, rotation := 0, posX := 3, posY := 0 } (0 % 7) 0 3 0 = false := h5
    simp only [spawnPiece, e, Bool.false_eq_true, if_false]
    rfl
  have hh : hardDropStep 24 (stackPiece k 1 0 s false) true 0 =
      some (stackPiece (k + 1) 0 0 (s + (0 + n)) false) := by
    have e : (stackPiece k 1 0 s false).prevSpace = false := rfl
    unfold hardDropStep
    rw [e, hd]
    simp only [Bool.not_false, Bool.and_self, if_true]
    rw [hl, hc, hs]
  have hgo : (stackPiece k 0 0 s false).gameOver = false := rfl
  simp only [frame, rotDropFrame, hgo, Bool.false_eq_true, if_false, hm, hr, hh, gravityLoop,
    List.foldl_nil]
  rfl

theorem stack_idle (k : Nat) (s : Int) :
    frame 24 (stackPiece k 0 0 s true) idleFrame = some (stackPiece k 0 0 s false) := rfl

theorem stack_reach_next (k n : Nat) (s : Int) (hn : n < 24)
    (hb : stackBoard (k + 1) = lockLoop 0 3 (0 + (n : Int)) (shapeAt 0 1) (stackBoard k))
    (h1 : collidesLoop (stackBoard k) 3 0 (shapeAt 0 1) = false)
    (h2 : ∀ j, j < n → collidesLoop (stackBoard k) 3 (0 + j + 1) (shapeAt 0 1) = false)
    (h3 : collidesLoop (stackBoard k) 3 (0 + n + 1) (shapeAt 0 1) = true)
    (h4 : ∀ y, y < 20 → isRowFull (stackBoard (k + 1)) y = false)
    (h5 : collidesLoop (stackBoard (k + 1)) 3 0 (shapeAt 0 0) = false)
    (hsc : InInt32 (s + (0 + n)))
    (hr : Reachable (stackPiece k 0 0 s false)) :
    Reachable (stackPiece (k + 1) 0 0 (s + (0 + n)) false) :=
  Reachable.step 24 idleFrame
    (Reachable.step 24 rotDropFrame hr (stack_drop_of k n s hn hb h1 h2 h3 h4 h5 hsc))
    (stack_idle (k + 1) (s + (0 + n)))

theorem towerState_reachable : Reachable towerState := by
  have r0 : Reachable (stackPiece 0 0 0 0 false) := Reachable.init 0
  have r1 := stack_reach_next 0 16 0 (by decide) rfl (by decide) (by decide) (by decide)
    (by decide) (by decide) (by decide) r0
  have r2 := stack_reach_next 1 12 _ (by decide) rfl (by decide) (by decide) (by decide)
    (by decide) (by decide) (by decide) r1
  have r3 := stack_reach_next 2 8 _ (by decide) rfl (by decide) (by decide) (by decide)
    (by decide) (by decide) (by decide) r2
  have r4 := stack_reach_next 3 4 _ (by decide) rfl (by decide) (by decide) (by decide)
    (by decide) (by decide) (by decide) r3
  exact r4

theorem tower_rotate : rotateStep towerState true = stackPiece 4 1 0 40 false := by
  have e : collides towerState towerState.currentPieceIdx ((towerState.rotation + 1) % 4)
      towerState.posX towerState.posY = false := by decide
  have e2 : towerState.prevUp = false := rfl
  simp only [rotateStep, e, e2, Bool.not_false, Bool.and_self, if_true]
  rfl

theorem tower_drop : hardDropStep 24 (stackPiece 4 1 0 40 false) true 0 =
    some (spawnPiece (lockPiece (stackPiece 4 1 0 40 false)) 0) :=
  hardDropStep_blocked 23 (stackPiece 4 1 0 40 false) 0 (by decide) rfl (by decide) (by decide)

theorem tower_tick : gravityTick (spawnPiece (lockPiece (stackPiece 4 1 0 40 false)) 0) 0 =
    spawnPiece (lockPiece (spawnPiece (lockPiece (stackPiece 4 1 0 40 false)) 0)) 0 :=
  gravityTick_blocked _ 0 (by decide) (by decide)

/-- C10, the code at a failing input: `towerState` is reachable from the
initial state and playing; in a frame with rotate and hard drop pressed the
piece turns upright and is locked where it stands, the spawn that follows
collides and sets gameOver while board cell (3,1) is empty; the gravity
iteration of the same frame then locks the colliding piece, and at the end
of the frame cell (3,1) holds kind 0. -/
theorem gravity_after_gameOver_writes_board :
    Reachable towerState ∧ towerState.gameOver = false ∧
    (hardDropStep 24 (rotateStep (moveStep towerState false false) true) true 0).map
      (fun g => (g.gameOver, g.board (idx 3 1))) = some (true, -1) ∧
    (frame 24 towerState dropTickFrame).map (fun g => (g.gameOver, g.board (idx 3 1)))
      = some (true, 0) := by
  have hm : moveStep towerState false false = towerState := rfl
  refine ⟨towerState_reachable, rfl, ?_, ?_⟩
  · rw [hm, tower_rotate, tower_drop]
    decide
  · have hgo : towerState.gameOver = false := rfl
    simp only [frame, dropTickFrame, hgo, Bool.false_eq_true, if_false, hm, tower_rotate,
      tower_drop, gravityLoop, List.foldl_cons, List.foldl_nil, tower_tick]
    decide

/-- Instance of C1: the state reached after four hard drops in column 5. -/
theorem reachable_active_piece_free_witness :
    (Reachable towerState ∧ towerState.gameOver = false) ∧
    (shapeAt towerState.currentPieceIdx towerState.rotation).length = 4 ∧
    (∀ c ∈ shapeAt towerState.currentPieceIdx towerState.rotation,
      0 ≤ towerState.posX + c.x ∧ towerState.posX + c.x < 10 ∧
        0 ≤ towerState.posY + c.y ∧ towerState.posY + c.y < 20 ∧
        towerState.board
          (idx (towerState.posX + c.x).toNat (towerState.posY + c.y).toNat) = -1) ∧
    collides towerState towerState.currentPieceIdx towerState.rotation
      towerState.posX towerState.posY = false :=
  ⟨⟨towerState_reachable, rfl⟩,
    reachable_active_piece_free towerState towerState_reachable rfl⟩

/-! ## The frame loop: game over, restart, stored key states -/

theorem overState_frame : frame 24 towerState rotDropFrame = some overState := by
  have hm : moveStep towerState false false = towerState := rfl
  have hgo : towerState.gameOver = false := rfl
  have hl : lockPiece (stackPiece 4 1 0 40 false) = stackPiece 5 1 0 40 false := rfl
  have hs : spawnPiece (stackPiece 5 1 0 40 false) 0 =
      { stackPiece 5 0 0 40 false with gameOver := true } := by
    have e : collides { stackPiece 5 1 0 40 false with
        currentPieceIdx := 0 % 7, rotation := 0, posX := 3, posY := 0 } (0 % 7) 0 3 0 = true := by
      decide
    simp only [spawnPiece, e, if_true]
    rfl
  simp only [frame, rotDropFrame, hgo, Bool.false_eq_true, if_false, hm, tower_rotate,
    tower_drop, hl, hs, gravityLoop, List.foldl_nil]
  rfl

theorem overState_reachable : Reachable overState :=
  Reachable.step 24 rotDropFrame towerState_reachable overState_frame

/-- C11: in a frame that starts with gameOver true and in which restart is
not on its rising edge, the frame returns and leaves board, score, piece
kind, rotation, position and the gameOver flag unchanged, whatever the other
keys and the number of gravity iterations are; and a frame that starts with
gameOver true can end with gameOver false only on a rising edge of restart. -/
theorem gameOver_frame_frozen (fuel : Nat) (g : GameState) (f : FrameInput)
    (hover : g.gameOver = true) :
    (¬ (f.keyR = true ∧ g.prevR = false) →
      ∃ g1, frame fuel g f = some g1 ∧
        g1.board = g.board ∧ g1.score = g.score ∧
        g1.currentPieceIdx = g.currentPieceIdx ∧ g1.rotation = g.rotation ∧
        g1.posX = g.posX ∧ g1.posY = g.posY ∧ g1.gameOver = true) ∧
    (∀ g1, frame fuel g f = some g1 → g1.gameOver = false →
      f.keyR = true ∧ g.prevR = false) := by
  constructor
  · intro hno
    have hc : (f.keyR && !g.prevR) = false := by
      cases hk : f.keyR <;> cases hp : g.prevR <;> simp_all
    refine ⟨{ g with prevR := f.keyR }, ?_, rfl, rfl, rfl, rfl, rfl, rfl, hover⟩
    simp only [frame, hover, if_true, hc, Bool.false_eq_true, if_false]
  · intro g1 hf hfalse
    simp only [frame, hover, if_true, Option.some.injEq] at hf
    cases hk : f.keyR <;> cases hp : g.prevR
    all_goals simp only [hk, hp, Bool.not_false, Bool.not_true, Bool.and_self, Bool.and_false,
      Bool.and_true, Bool.false_eq_true, if_false, if_true] at hf
    all_goals first
      | exact ⟨rfl, rfl⟩
      | (rw [← hf] at hfalse
         have hover1 : g.gameOver = false := hfalse
         rw [hover] at hover1
         exact absurd hover1 (by decide))

/-- Instance of C11: the game-over state after the fifth hard drop, in a
frame with the left key down and two gravity iterations due. -/
theorem gameOver_frame_frozen_witness :
    overState.gameOver = true ∧
    (¬ (leftTickFrame.keyR = true ∧ overState.prevR = false) →
      ∃ g1, frame 24 overState leftTickFrame = some g1 ∧
        g1.board = overState.board ∧ g1.score = overState.score ∧
        g1.currentPieceIdx = overState.currentPieceIdx ∧ g1.rotation = overState.rotation ∧
        g1.posX = overState.posX ∧ g1.posY = overState.posY ∧ g1.gameOver = true) ∧
    (∀ g1, frame 24 overState leftTickFrame = some g1 → g1.gameOver = false →
      leftTickFrame.keyR = true ∧ overState.prevR = false) :=
  ⟨rfl, gameOver_frame_frozen 24 overState leftTickFrame rfl⟩

/-- C12: from every game-over state, `resetGame` as run by a restart yields
score 0, all 200 board cells empty, gameOver false, rotation 0, origin (3,0),
a kind in 0..6 and all six stored key states false; the restart frame returns
that session after storing the restart key, which is down, in `prevR`. -/
theorem restart_resets_session (fuel : Nat) (g : GameState) (f : FrameInput)
    (hover : g.gameOver = true) (hkey : f.keyR = true) (hprev : g.prevR = false) :
    ((resetGame g f.randReset).score = 0 ∧
      (∀ i, i < 200 → (resetGame g f.randReset).board i = -1) ∧
      (resetGame g f.randReset).gameOver = false ∧
      (resetGame g f.randReset).rotation = 0 ∧
      (resetGame g f.randReset).posX = 3 ∧ (resetGame g f.randReset).posY = 0 ∧
      (resetGame g f.randReset).currentPieceIdx < 7 ∧
      (resetGame g f.randReset).prevLeft = false ∧
      (resetGame g f.randReset).prevRight = false ∧
      (resetGame g f.randReset).prevDown = false ∧
      (resetGame g f.randReset).prevUp = false ∧
      (resetGame g f.randReset).prevSpace = false ∧
      (resetGame g f.randReset).prevR = false) ∧
    frame fuel g f = some { resetGame g f.randReset with prevR := true } := by
  refine ⟨⟨rfl, fun _ _ => rfl, rfl, rfl, rfl, rfl, Nat.mod_lt _ (by decide),
    rfl, rfl, rfl, rfl, rfl, rfl⟩, ?_⟩
  simp only [frame, hover, if_true, hkey, hprev, Bool.not_false, Bool.and_self]

/-- Instance of C12: restart from the game-over state after the fifth hard
drop. -/
theorem restart_resets_session_witness :
    (overState.gameOver = true ∧ restartFrame.keyR = true ∧ overState.prevR = false) ∧
    ((resetGame overState restartFrame.randReset).score = 0 ∧
      (∀ i, i < 200 → (resetGame overState restartFrame.randReset).board i = -1) ∧
      (resetGame overState restartFrame.randReset).gameOver = false ∧
      (resetGame overState restartFrame.randReset).rotation = 0 ∧
      (resetGame overState restartFrame.randReset).posX = 3 ∧
      (resetGame overState restartFrame.randReset).posY = 0 ∧
      (resetGame overState restartFrame.randReset).currentPieceIdx < 7 ∧
      (resetGame overState restartFrame.randReset).prevLeft = false ∧
      (resetGame overState restartFrame.randReset).prevRight = false ∧
      (resetGame overState restartFrame.randReset).prevDown = false ∧
      (resetGame overState restartFrame.randReset).prevUp = false ∧
      (resetGame overState restartFrame.randReset).prevSpace = false ∧
      (resetGame overState restartFrame.randReset).prevR = false) ∧
    frame 24 overState restartFrame =
      some { resetGame overState restartFrame.randReset with prevR := true } :=
  ⟨⟨rfl, rfl, rfl⟩, restart_resets_session 24 overState restartFrame rfl rfl rfl⟩

/-- C13 as stated fails: in the game-over state after the fifth hard drop, a
frame with only the left key down returns with `prevLeft` still false and
`prevUp`, `prevSpace` still true, although left is down and rotate and hard
drop are up in that frame. -/
theorem prev_flags_not_all_recorded :
    ¬ (∀ (fuel : Nat) (g g1 : GameState) (f : FrameInput), frame fuel g f = some g1 →
      g1.prevLeft = f.left ∧ g1.prevRight = f.right ∧ g1.prevDown = f.down ∧
      g1.prevUp = f.up ∧ g1.prevSpace = f.space ∧ g1.prevR = f.keyR) := by
  intro h
  have hf : frame 24 overState leftTickFrame = some { overState with prevR := false } := rfl
  have h1 := (h 24 overState _ leftTickFrame hf).1
  exact absurd h1 (by decide)

/-- C13 amended: a frame that starts in Playing (piece well-formed, fuel of
at least 24 loop tests) returns, and then each of the six stored key states
equals the raw key state of that frame; a frame that starts in GameOver
returns for any fuel with `prevR` equal to the raw restart key, the other
five stored states being unchanged when no restart happened and false when
one did. -/
theorem prev_flags_recorded (fuel : Nat) (g : GameState) (f : FrameInput) :
    (g.gameOver = false → PieceFits g → 24 ≤ fuel →
      ∃ g1, frame fuel g f = some g1 ∧
        g1.prevLeft = f.left ∧ g1.prevRight = f.right ∧ g1.prevDown = f.down ∧
        g1.prevUp = f.up ∧ g1.prevSpace = f.space ∧ g1.prevR = f.keyR) ∧
    (g.gameOver = true → ¬ (f.keyR = true ∧ g.prevR = false) →
      ∃ g1, frame fuel g f = some g1 ∧ g1.prevR = f.keyR ∧
        g1.prevLeft = g.prevLeft ∧ g1.prevRight = g.prevRight ∧ g1.prevDown = g.prevDown ∧
        g1.prevUp = g.prevUp ∧ g1.prevSpace = g.prevSpace) ∧
    (g.gameOver = true → f.keyR = true ∧ g.prevR = false →
      ∃ g1, frame fuel g f = some g1 ∧ g1.prevR = f.keyR ∧
        g1.prevLeft = false ∧ g1.prevRight = false ∧ g1.prevDown = false ∧
        g1.prevUp = false ∧ g1.prevSpace = false) := by
  refine ⟨?_, ?_, ?_⟩
  · intro hplay hfits hfuel
    obtain ⟨g3, h3⟩ := hardDropStep_returns fuel (rotateStep (moveStep g f.left f.right) f.up)
      f.space f.randDrop (rotateStep_fits _ f.up (moveStep_fits g f.left f.right hfits)) hfuel
    refine ⟨{ gravityLoop g3 f.gravity with
        prevLeft := f.left, prevRight := f.right, prevDown := f.down
        prevUp := f.up, prevSpace := f.space, prevR := f.keyR }, ?_,
      rfl, rfl, rfl, rfl, rfl, rfl⟩
    simp only [frame, hplay, Bool.false_eq_true, if_false, h3]
  · intro hover hno
    have hc : (f.keyR && !g.prevR) = false := by
      cases hk : f.keyR <;> cases hp : g.prevR <;> simp_all
    refine ⟨{ g with prevR := f.keyR }, ?_, rfl, rfl, rfl, rfl, rfl, rfl⟩
    simp only [frame, hover, if_true, hc, Bool.false_eq_true, if_false]
  · intro hover hyes
    refine ⟨{ resetGame g f.randReset with prevR := f.keyR }, ?_, rfl, rfl, rfl, rfl, rfl, rfl⟩
    simp only [frame, hover, if_true, hyes.1, hyes.2, Bool.not_false, Bool.and_self]

/-- Instance of C13 amended, one frame for each of its three cases: the
Playing frame that ends the game from `towerState`; the game-over state in a
frame with the left key down, where `prevLeft` stays false and `prevUp`,
`prevSpace` stay true; the game-over state in a restart frame. -/
theorem prev_flags_recorded_witness :
    ((towerState.gameOver = false ∧ PieceFits towerState ∧ 24 ≤ 24) ∧
      ∃ g1, frame 24 towerState rotDropFrame = some g1 ∧
        g1.prevLeft = rotDropFrame.left ∧ g1.prevRight = rotDropFrame.right ∧
        g1.prevDown = rotDropFrame.down ∧ g1.prevUp = rotDropFrame.up ∧
        g1.prevSpace = rotDropFrame.space ∧ g1.prevR = rotDropFrame.keyR) ∧
    ((overState.gameOver = true ∧ ¬ (leftTickFrame.keyR = true ∧ overState.prevR = false) ∧
        leftTickFrame.left = true ∧ overState.prevLeft = false ∧
        leftTickFrame.up = false ∧ overState.prevUp = true) ∧
      ∃ g1, frame 24 overState leftTickFrame = some g1 ∧ g1.prevR = leftTickFrame.keyR ∧
        g1.prevLeft = overState.prevLeft ∧ g1.prevRight = overState.prevRight ∧
        g1.prevDown = overState.prevDown ∧ g1.prevUp = overState.prevUp ∧
        g1.prevSpace = overState.prevSpace) ∧
    ((overState.gameOver = true ∧ restartFrame.keyR = true ∧ overState.prevR = false) ∧
      ∃ g1, frame 24 overState restartFrame = some g1 ∧ g1.prevR = restartFrame.keyR ∧
        g1.prevLeft = false ∧ g1.prevRight = false ∧ g1.prevDown = false ∧
        g1.prevUp = false ∧ g1.prevSpace = false) :=
  ⟨⟨⟨rfl, reachable_fits towerState towerState_reachable, le_refl 24⟩,
      (prev_flags_recorded 24 towerState rotDropFrame).1 rfl
        (reachable_fits towerState towerState_reachable) (le_refl 24)⟩,
    ⟨⟨rfl, by decide, rfl, rfl, rfl, rfl⟩,
      (prev_flags_recorded 24 overState leftTickFrame).2.1 rfl (by decide)⟩,
    ⟨⟨rfl, rfl, rfl⟩,
      (prev_flags_recorded 24 overState restartFrame).2.2 rfl ⟨rfl, rfl⟩⟩⟩

/-- C14: in a Playing frame with no gravity iteration in which each of left,
right, rotate and hard drop that is down was already down in the previous
frame, the frame returns and board, score, piece kind, rotation, position
and the gameOver flag are unchanged: only the stored key states are
rewritten. -/
theorem held_keys_do_not_repeat (fuel : Nat) (g : GameState) (f : FrameInput)
    (hplay : g.gameOver = false) (hgrav : f.gravity = [])
    (hl : f.left = true → g.prevLeft = true) (hr : f.right = true → g.prevRight = true)
    (hu : f.up = true → g.prevUp = true) (hs : f.space = true → g.prevSpace = true) :
    ∃ g1, frame fuel g f = some g1 ∧
      g1.board = g.board ∧ g1.score = g.score ∧
      g1.currentPieceIdx = g.currentPieceIdx ∧ g1.rotation = g.rotation ∧
      g1.posX = g.posX ∧ g1.posY = g.posY ∧ g1.gameOver = false := by
  have el : (f.left && !g.prevLeft) = false := by
    cases h1 : f.left <;> cases h2 : g.prevLeft <;> simp_all
  have er : (f.right && !g.prevRight) = false := by
    cases h1 : f.right <;> cases h2 : g.prevRight <;> simp_all
  have eu : (f.up && !g.prevUp) = false := by
    cases h1 : f.up <;> cases h2 : g.prevUp <;> simp_all
  have es : (f.space && !g.prevSpace) = false := by
    cases h1 : f.space <;> cases h2 : g.prevSpace <;> simp_all
  have hm : moveStep g f.left f.right = g := by
    simp only [moveStep, el, er, Bool.false_eq_true, if_false]
  have hrot : rotateStep g f.up = g := by
    simp only [rotateStep, eu, Bool.false_eq_true, if_false]
  have hd : hardDropStep fuel g f.space f.randDrop = some g := by
    simp only [hardDropStep, es, Bool.false_eq_true, if_false]
  refine ⟨{ g with
      prevLeft := f.left, prevRight := f.right, prevDown := f.down
      prevUp := f.up, prevSpace := f.space, prevR := f.keyR }, ?_,
    rfl, rfl, rfl, rfl, rfl, rfl, hplay⟩
  simp only [frame, hplay, Bool.false_eq_true, if_false, hm, hrot, hd, hgrav, gravityLoop,
    List.foldl_nil]

/-- Instance of C14: the state over the filled column 5 with rotate and hard
drop stored as held, in a frame where both are still down. -/
theorem held_keys_do_not_repeat_witness :
    ((stackPiece 4 0 0 40 true).gameOver = false ∧ rotDropFrame.gravity = [] ∧
      (rotDropFrame.left = true → (stackPiece 4 0 0 40 true).prevLeft = true) ∧
      (rotDropFrame.right = true → (stackPiece 4 0 0 40 true).prevRight = true) ∧
      (rotDropFrame.up = true → (stackPiece 4 0 0 40 true).prevUp = true) ∧
      (rotDropFrame.space = true → (stackPiece 4 0 0 40 true).prevSpace = true)) ∧
    ∃ g1, frame 24 (stackPiece 4 0 0 40 true) rotDropFrame = some g1 ∧
      g1.board = (stackPiece 4 0 0 40 true).board ∧ g1.score = (stackPiece 4 0 0 40 true).score ∧
      g1.currentPieceIdx = (stackPiece 4 0 0 40 true).currentPieceIdx ∧
      g1.rotation = (stackPiece 4 0 0 40 true).rotation ∧
      g1.posX = (stackPiece 4 0 0 40 true).posX ∧ g1.posY = (stackPiece 4 0 0 40 true).posY ∧
      g1.gameOver = false :=
  ⟨⟨rfl, rfl, by decide, by decide, fun _ => rfl, fun _ => rfl⟩,
    held_keys_do_not_repeat 24 (stackPiece 4 0 0 40 true) rotDropFrame rfl rfl
      (by decide) (by decide) (fun _ => rfl) (fun _ => rfl)⟩

/-! ## Rotation states -/

theorem sameCells_iff (a b : List Vec2I) :
    sameCells a b = true ↔ ∀ c, c ∈ b ↔ c ∈ a := by
  simp only [sameCells, Bool.and_eq_true, List.all_eq_true, decide_eq_true_eq]
  constructor
  · intro h c
    exact ⟨fun hc => h.2 c hc, fun hc => h.1 c hc⟩
  · intro h
    exact ⟨fun c hc => (h c).mpr hc, fun c hc => (h c).mp hc⟩

theorem translationCheck_iff (a b : List Vec2I) :
    translationCheck a b = true ↔ SameUpToTranslation a b := by
  cases a with
  | nil =>
    simp only [translationCheck, SameUpToTranslation, List.map_nil, List.not_mem_nil, iff_false,
      List.isEmpty_iff]
    constructor
    · intro h
      exact ⟨⟨0, 0⟩, fun c hc => by rw [h] at hc; simp at hc⟩
    · rintro ⟨_, h⟩
      exact List.eq_nil_iff_forall_not_mem.mpr h
  | cons a0 rest =>
    simp only [translationCheck, List.any_eq_true, sameCells_iff]
    constructor
    · rintro ⟨c, _, h⟩
      exact ⟨_, h⟩
    · rintro ⟨t, h⟩
      have h0 : translate t a0 ∈ b := (h _).mpr (by simp)
      refine ⟨translate t a0, h0, ?_⟩
      have e : (⟨(translate t a0).x - a0.x, (translate t a0).y - a0.y⟩ : Vec2I) = t := by
        cases t
        simp only [translate, Vec2I.mk.injEq]
        constructor <;> omega
      rw [e]
      exact h

/-- C15 as stated fails: state 1 of the T piece is not a translate of the
clockwise quarter turn of its state 0. -/
theorem T_state1_not_clockwise_of_state0 :
    ¬ SameUpToTranslation ((shapeAt 2 0).map rotateCW) (shapeAt 2 ((0 + 1) % 4)) := by
  rw [← translationCheck_iff]
  decide

/-- C15 amended: for I, O, S, Z (kinds 0, 1, 3, 4) state (r+1) mod 4 is, up
to a translation, the clockwise quarter turn (x,y) to (-y,x) of state r; for
T (kind 2) it is, up to a translation, the counter-clockwise quarter turn
(x,y) to (y,-x) of state r. -/
theorem rotation_states_quarter_turns (r : Nat) (hr : r < 4) :
    SameUpToTranslation ((shapeAt 0 r).map rotateCW) (shapeAt 0 ((r + 1) % 4)) ∧
    SameUpToTranslation ((shapeAt 1 r).map rotateCW) (shapeAt 1 ((r + 1) % 4)) ∧
    SameUpToTranslation ((shapeAt 3 r).map rotateCW) (shapeAt 3 ((r + 1) % 4)) ∧
    SameUpToTranslation ((shapeAt 4 r).map rotateCW) (shapeAt 4 ((r + 1) % 4)) ∧
    SameUpToTranslation ((shapeAt 2 r).map rotateCCW) (shapeAt 2 ((r + 1) % 4)) := by
  have h : ∀ r < 4,
      translationCheck ((shapeAt 0 r).map rotateCW) (shapeAt 0 ((r + 1) % 4)) = true ∧
      translationCheck ((shapeAt 1 r).map rotateCW) (shapeAt 1 ((r + 1) % 4)) = true ∧
      translationCheck ((shapeAt 3 r).map rotateCW) (shapeAt 3 ((r + 1) % 4)) = true ∧
      translationCheck ((shapeAt 4 r).map rotateCW) (shapeAt 4 ((r + 1) % 4)) = true ∧
      translationCheck ((shapeAt 2 r).map rotateCCW) (shapeAt 2 ((r + 1) % 4)) = true := by
    decide
  simp only [← translationCheck_iff]
  exact h r hr

/-- Instance of C15 amended: from state 3 back to state 0. -/
theorem rotation_states_quarter_turns_witness :
    3 < 4 ∧
    SameUpToTranslation ((shapeAt 0 3).map rotateCW) (shapeAt 0 ((3 + 1) % 4)) ∧
    SameUpToTranslation ((shapeAt 1 3).map rotateCW) (shapeAt 1 ((3 + 1) % 4)) ∧
    SameUpToTranslation ((shapeAt 3 3).map rotateCW) (shapeAt 3 ((3 + 1) % 4)) ∧
    SameUpToTranslation ((shapeAt 4 3).map rotateCW) (shapeAt 4 ((3 + 1) % 4)) ∧
    SameUpToTranslation ((shapeAt 2 3).map rotateCCW) (shapeAt 2 ((3 + 1) % 4)) :=
  ⟨by decide, rotation_states_quarter_turns 3 (by decide)⟩

/-- The states of J and L (kinds 5, 6) are no quarter turns of each other in
either direction: each step of the rotation index mirrors the piece. -/
theorem J_L_states_are_not_quarter_turns : ∀ k ∈ [5, 6], ∀ r < 4,
    ¬ SameUpToTranslation ((shapeAt k r).map rotateCW) (shapeAt k ((r + 1) % 4)) ∧
    ¬ SameUpToTranslation ((shapeAt k r).map rotateCCW) (shapeAt k ((r + 1) % 4)) := by
  simp only [← translationCheck_iff]
  decide

/-- C16: for every kind in 0..6 and rotation in 0..3 the rotation state
consists of exactly 4 pairwise distinct offsets (x,y), each with
0 <= x <= 3 and 0 <= y <= 3. -/
theorem shape_four_distinct_cells_in_frame (kind rot : Nat) (hk : kind < 7) (hr : rot < 4) :
    (shapeAt kind rot).length = 4 ∧ (shapeAt kind rot).Nodup ∧
    ∀ c ∈ shapeAt kind rot, 0 ≤ c.x ∧ c.x ≤ 3 ∧ 0 ≤ c.y ∧ c.y ≤ 3 := by
  have h : ∀ kind < 7, ∀ rot < 4, (shapeAt kind rot).Nodup := by decide
  exact ⟨shapeAt_length kind hk rot hr, h kind hk rot hr, shapeAt_range kind hk rot hr⟩

/-- Instance of C16: the L piece in its last rotation state. -/
theorem shape_four_distinct_cells_in_frame_witness :
    (6 < 7 ∧ 3 < 4) ∧
    (shapeAt 6 3).length = 4 ∧ (shapeAt 6 3).Nodup ∧
    ∀ c ∈ shapeAt 6 3, 0 ≤ c.x ∧ c.x ≤ 3 ∧ 0 ≤ c.y ∧ c.y ≤ 3 :=
  ⟨⟨by decide, by decide⟩, shape_four_distinct_cells_in_frame 6 3 (by decide) (by decide)⟩

theorem spawn_cells_in_board : ∀ kind < 7, ∀ c ∈ shapeAt kind 0,
    inBoard 3 0 c ∧ cellIdx 3 0 c < 200 := by
  decide

/-- C17: on a board whose 200 cells are all empty, `collides` is false for
every kind in 0..6 at rotation 0 and origin (3,0), and `spawnPiece` leaves
the gameOver flag as it was, whatever `std::rand()` returns. -/
theorem spawn_free_on_empty_board (g : GameState) (hempty : ∀ i, i < 200 → g.board i = -1) :
    (∀ kind, kind < 7 → collides g kind 0 3 0 = false) ∧
    (∀ r, (spawnPiece g r).gameOver = g.gameOver ∧ (spawnPiece g r).currentPieceIdx < 7 ∧
      (spawnPiece g r).rotation = 0 ∧ (spawnPiece g r).posX = 3 ∧ (spawnPiece g r).posY = 0) := by
  have hc : ∀ kind, kind < 7 → collides g kind 0 3 0 = false := by
    intro kind hk
    rw [collides_false_iff]
    intro c hcm
    obtain ⟨h1, h2⟩ := spawn_cells_in_board kind hk c hcm
    exact ⟨h1, hempty _ h2⟩
  refine ⟨hc, fun r => ?_⟩
  have e : collides { g with currentPieceIdx := r % 7, rotation := 0, posX := 3, posY := 0 }
      (r % 7) 0 3 0 = false := hc (r % 7) (Nat.mod_lt r (by decide))
  unfold spawnPiece
  simp only []
  rw [e]
  exact ⟨rfl, Nat.mod_lt r (by decide), rfl, rfl, rfl⟩

/-- Instance of C17: the initial state. -/
theorem spawn_free_on_empty_board_witness :
    (∀ i, i < 200 → (initState 3).board i = -1) ∧
    (∀ kind, kind < 7 → collides (initState 3) kind 0 3 0 = false) ∧
    (∀ r, (spawnPiece (initState 3) r).gameOver = (initState 3).gameOver ∧
      (spawnPiece (initState 3) r).currentPieceIdx < 7 ∧
      (spawnPiece (initState 3) r).rotation = 0 ∧ (spawnPiece (initState 3) r).posX = 3 ∧
      (spawnPiece (initState 3) r).posY = 0) :=
  ⟨fun _ _ => rfl, spawn_free_on_empty_board (initState 3) (fun _ _ => rfl)⟩

/-! ## `lockPiece` followed by `clearLines` -/

theorem clearLinesLoop_no_full_row (b : Board) (y : Nat) (hy : y < 20) :
    isRowFull (clearLinesLoop b).1 y = false := by
  have hmem : rowAt (clearLinesLoop b).1 y ∈ rowsOf (clearLinesLoop b).1 :=
    List.getElem?_mem (rowsOf_getElem? _ y hy)
  rw [(clearLinesLoop_rows b).1] at hmem
  simp only [batchClear, List.mem_append, List.mem_replicate, List.mem_filter,
    Bool.not_eq_true'] at hmem
  rw [isRowFull_eq]
  rcases hmem with ⟨_, h⟩ | ⟨_, h⟩
  · rw [h]; exact emptyRow_not_full
  · exact h

/-- C20: for every board, after `clearLines` no row is full, and a second
`clearLines` right after the first returns 0, adds nothing to the score and
leaves the 200 board cells unchanged. -/
theorem clearLines_idempotent (g : GameState) :
    (∀ y, y < 20 → isRowFull (clearLines g).1.board y = false) ∧
    (clearLines (clearLines g).1).2 = 0 ∧
    (clearLines (clearLines g).1).1.score = (clearLines g).1.score ∧
    (∀ i, i < 200 → (clearLines (clearLines g).1).1.board i = (clearLines g).1.board i) := by
  have h : ∀ y, y < 20 → isRowFull (clearLines g).1.board y = false := by
    intro y hy
    rw [clearLines_board]
    exact clearLinesLoop_no_full_row g.board y hy
  have h0 := clearLines_count_noop (clearLines g).1 h
  have h1 := clearLines_noop (clearLines g).1 h
  refine ⟨h, h0, ?_, fun i _ => ?_⟩
  · rw [h1]
  · rw [h1]

theorem isRowFull_iff (b : Board) (y : Nat) :
    isRowFull b y = true ↔ ∀ x, x < 10 → b (idx x y) ≠ -1 := by
  simp only [isRowFull, List.all_eq_true, List.mem_range, bne_iff_ne]

theorem isRowFull_false_iff (b : Board) (y : Nat) :
    isRowFull b y = false ↔ ∃ x, x < 10 ∧ b (idx x y) = -1 := by
  rw [← Bool.not_eq_true, isRowFull_iff]
  simp only [not_forall, not_not, exists_prop]

theorem shapeAt_length_le (kind rot : Nat) : (shapeAt kind rot).length ≤ 4 := by
  by_cases hk : kind < 7
  · by_cases hr : rot < 4
    · exact le_of_eq (shapeAt_length kind hk rot hr)
    · have h : ∀ kind < 7, ∀ p, TETROMINOES.get? kind = some p → p.rotations.length = 4 := by
        decide
      unfold shapeAt
      split
      · rename_i p hp
        have hnone : p.rotations.get? rot = none :=
          List.get?_eq_none.mpr (by rw [h kind hk p hp]; omega)
        rw [hnone]; simp
      · simp
  · have hnone : TETROMINOES.get? kind = none :=
      List.get?_eq_none.mpr (by simp only [TETROMINOES, List.length_cons, List.length_nil]; omega)
    unfold shapeAt
    rw [hnone]; simp

theorem lockPiece_full_rows_touched (g : GameState)
    (hno : ∀ y, y < 20 → isRowFull g.board y = false) (y : Nat) (hy : y < 20)
    (hfull : isRowFull (lockPiece g).board y = true) :
    y ∈ (shapeAt g.currentPieceIdx g.rotation).map (fun c => (g.posY + c.y).toNat) := by
  obtain ⟨x, hx, hempty⟩ := (isRowFull_false_iff g.board y).mp (hno y hy)
  have hset := (isRowFull_iff _ y).mp hfull x hx
  by_cases hfoot : ∃ c ∈ shapeAt g.currentPieceIdx g.rotation,
      inBoard g.posX g.posY c ∧ idx x y = cellIdx g.posX g.posY c
  · obtain ⟨c, hc, hin, hidx⟩ := hfoot
    refine List.mem_map.mpr ⟨c, hc, ?_⟩
    obtain ⟨h1, h2, _, _⟩ := hin
    have h2' : g.posX + c.x < 10 := by simpa using h2
    simp only [cellIdx, idx_eq] at hidx
    omega
  · have hsame : (lockPiece g).board (idx x y) = g.board (idx x y) := by
      simp only [lockPiece, lockLoop_apply]
      rw [if_neg hfoot]
    rw [hsame] at hset
    exact absurd hempty hset

theorem lockPiece_fullRowCount_le (g : GameState)
    (hno : ∀ y, y < 20 → isRowFull g.board y = false) :
    fullRowCount (lockPiece g).board ≤ 4 := by
  have hnodup : ((List.range BOARD_ROWS).filter (isRowFull (lockPiece g).board)).Nodup :=
    (List.nodup_range BOARD_ROWS).filter _
  have hsub : (List.range BOARD_ROWS).filter (isRowFull (lockPiece g).board) ⊆
      (shapeAt g.currentPieceIdx g.rotation).map (fun c => (g.posY + c.y).toNat) := by
    intro y hy
    obtain ⟨h1, h2⟩ := List.mem_filter.mp hy
    exact lockPiece_full_rows_touched g hno y (List.mem_range.mp h1) h2
  have hlen := (hnodup.subperm hsub).length_le
  rw [List.length_map] at hlen
  exact le_trans hlen (shapeAt_length_le _ _)

/-- C19: when the board has no full row, the board after `lockPiece` has at
most 4 full rows, for every kind, rotation and origin; so the `clearLines`
that follows returns a count from 0 to 4, and when it clears a row the
`switch` takes the case of that count, `g.score += 40`, `100`, `300` or
`1200` (as 32-bit additions), never the `default` case. -/
theorem lock_then_clear_at_most_four (g : GameState)
    (hno : ∀ y, y < 20 → isRowFull g.board y = false) :
    fullRowCount (lockPiece g).board ≤ 4 ∧
    (clearLines (lockPiece g)).2 = fullRowCount (lockPiece g).board ∧
    (clearLines (lockPiece g)).2 ≤ 4 ∧
    ((clearLines (lockPiece g)).2 = 0 ∧ (clearLines (lockPiece g)).1.score = g.score ∨
      (clearLines (lockPiece g)).2 = 1 ∧
        (clearLines (lockPiece g)).1.score = addInt32 g.score 40 ∨
      (clearLines (lockPiece g)).2 = 2 ∧
        (clearLines (lockPiece g)).1.score = addInt32 g.score 100 ∨
      (clearLines (lockPiece g)).2 = 3 ∧
        (clearLines (lockPiece g)).1.score = addInt32 g.score 300 ∨
      (clearLines (lockPiece g)).2 = 4 ∧
        (clearLines (lockPiece g)).1.score = addInt32 g.score 1200) := by
  have hle := lockPiece_fullRowCount_le g hno
  have hc : (clearLinesLoop (lockPiece g).board).2 = fullRowCount (lockPiece g).board := by
    rw [fullRowCount_eq]; exact (clearLinesLoop_rows (lockPiece g).board).2
  have hs : (lockPiece g).score = g.score := rfl
  rw [clearLines_count, clearLines_score, hc, hs]
  refine ⟨hle, rfl, hle, ?_⟩
  generalize fullRowCount (lockPiece g).board = n at hle
  match n, hle with
  | 0, _ => left; exact ⟨rfl, rfl⟩
  | 1, _ => right; left; exact ⟨rfl, rfl⟩
  | 2, _ => right; right; left; exact ⟨rfl, rfl⟩
  | 3, _ => right; right; right; left; exact ⟨rfl, rfl⟩
  | 4, _ => right; right; right; right; exact ⟨rfl, rfl⟩
  | k + 5, h => omega

/-- Instance of C19: rows 16..19 are filled in columns 1..9 and the upright I
piece is locked into column 0, which completes four rows: the count is 4 and
the score goes from 0 to 1200. -/
theorem lock_then_clear_at_most_four_witness :
    ((∀ y, y < 20 → isRowFull fourGapState.board y = false) ∧
      fullRowCount (lockPiece fourGapState).board = 4 ∧
      addInt32 fourGapState.score 1200 = 1200) ∧
    fullRowCount (lockPiece fourGapState).board ≤ 4 ∧
    (clearLines (lockPiece fourGapState)).2 = fullRowCount (lockPiece fourGapState).board ∧
    (clearLines (lockPiece fourGapState)).2 ≤ 4 ∧
    ((clearLines (lockPiece fourGapState)).2 = 0 ∧
        (clearLines (lockPiece fourGapState)).1.score = fourGapState.score ∨
      (clearLines (lockPiece fourGapState)).2 = 1 ∧
        (clearLines (lockPiece fourGapState)).1.score = addInt32 fourGapState.score 40 ∨
      (clearLines (lockPiece fourGapState)).2 = 2 ∧
        (clearLines (lockPiece fourGapState)).1.score = addInt32 fourGapState.score 100 ∨
      (clearLines (lockPiece fourGapState)).2 = 3 ∧
        (clearLines (lockPiece fourGapState)).1.score = addInt32 fourGapState.score 300 ∨
      (clearLines (lockPiece fourGapState)).2 = 4 ∧
        (clearLines (lockPiece fourGapState)).1.score = addInt32 fourGapState.score 1200) :=
  ⟨⟨by decide, by decide, by decide⟩,
    lock_then_clear_at_most_four fourGapState (by decide)⟩

theorem upright_I_cells (rot : Nat) (ox : Int)
    (hpos : (rot = 1 ∧ ox = -2) ∨ (rot = 3 ∧ ox = -1)) :
    (shapeAt 0 rot).map (fun c => (ox + c.x, (16 : Int) + c.y)) =
      [(0, 16), (0, 17), (0, 18), (0, 19)] := by
  rcases hpos with ⟨rfl, rfl⟩ | ⟨rfl, rfl⟩ <;> decide

theorem upright_I_lock (b : Board) (rot : Nat) (ox : Int)
    (hpos : (rot = 1 ∧ ox = -2) ∨ (rot = 3 ∧ ox = -1)) (j : Nat) :
    lockLoop 0 ox 16 (shapeAt 0 rot) b j =
      if j = 160 ∨ j = 170 ∨ j = 180 ∨ j = 190 then 0 else b j := by
  have h : (∃ c ∈ shapeAt 0 rot, inBoard ox 16 c ∧ j = cellIdx ox 16 c) ↔
      (j = 160 ∨ j = 170 ∨ j = 180 ∨ j = 190) := by
    rcases hpos with ⟨rfl, rfl⟩ | ⟨rfl, rfl⟩
    · have hs : shapeAt 0 1 = [⟨2, 0⟩, ⟨2, 1⟩, ⟨2, 2⟩, ⟨2, 3⟩] := by decide
      rw [hs]
      simp [inBoard, cellIdx, idx_eq]
    · have hs : shapeAt 0 3 = [⟨1, 0⟩, ⟨1, 1⟩, ⟨1, 2⟩, ⟨1, 3⟩] := by decide
      rw [hs]
      simp [inBoard, cellIdx, idx_eq]
  rw [lockLoop_apply]
  simp only [h]
  rfl

theorem upright_I_free (g : GameState) (rot : Nat) (ox : Int)
    (hrows : ∀ x, x < 10 → ∀ y, y < 19 → g.board (idx x y) = -1)
    (hcol0 : g.board (idx 0 19) = -1)
    (hpos : (rot = 1 ∧ ox = -2) ∨ (rot = 3 ∧ ox = -1)) :
    collides g 0 rot ox 16 = false ∧ collides g 0 rot ox (16 + 1) = true := by
  have h16 := hrows 0 (by omega) 16 (by omega)
  have h17 := hrows 0 (by omega) 17 (by omega)
  have h18 := hrows 0 (by omega) 18 (by omega)
  rcases hpos with ⟨rfl, rfl⟩ | ⟨rfl, rfl⟩
  · have hs : shapeAt 0 1 = [⟨2, 0⟩, ⟨2, 1⟩, ⟨2, 2⟩, ⟨2, 3⟩] := by decide
    simp only [collides, hs, collidesLoop]
    norm_num
    exact ⟨h16, h17, h18, hcol0⟩
  · have hs : shapeAt 0 3 = [⟨1, 0⟩, ⟨1, 1⟩, ⟨1, 2⟩, ⟨1, 3⟩] := by decide
    simp only [collides, hs, collidesLoop]
    norm_num
    exact ⟨h16, h17, h18, hcol0⟩

/-- C18: on a board that is empty except for row 19, which is non-empty in
columns 1..9 and empty in column 0, the I piece standing upright in column 0
on rows 16..19 (rotation 1 at origin (-2,16) or rotation 3 at origin
(-1,16)) does not collide and collides one row further down; `lockPiece`
followed by `clearLines` returns 1 and adds exactly 40 to the score (score
+ 40 being a value of the 32-bit `int`, so that the addition does not
overflow), after which row 19 equals the row 18 the board had before the clear (kind 0 in
column 0, columns 1..9 empty) and row 0 is empty. -/
theorem upright_I_completes_row_19 (g : GameState)
    (hrows : ∀ x, x < 10 → ∀ y, y < 19 → g.board (idx x y) = -1)
    (hcol0 : g.board (idx 0 19) = -1)
    (hrow19 : ∀ x, 1 ≤ x → x < 10 → g.board (idx x 19) ≠ -1)
    (hkind : g.currentPieceIdx = 0)
    (hpos : (g.rotation = 1 ∧ g.posX = -2) ∨ (g.rotation = 3 ∧ g.posX = -1))
    (hy : g.posY = 16) (hroom : InInt32 (g.score + 40)) :
    (shapeAt g.currentPieceIdx g.rotation).map (fun c => (g.posX + c.x, g.posY + c.y)) =
      [(0, 16), (0, 17), (0, 18), (0, 19)] ∧
    collides g g.currentPieceIdx g.rotation g.posX g.posY = false ∧
    collides g g.currentPieceIdx g.rotation g.posX (g.posY + 1) = true ∧
    (clearLines (lockPiece g)).2 = 1 ∧
    (clearLines (lockPiece g)).1.score = g.score + 40 ∧
    (∀ x, x < 10 →
      (clearLines (lockPiece g)).1.board (idx x 19) = (lockPiece g).board (idx x 18)) ∧
    (clearLines (lockPiece g)).1.board (idx 0 19) = 0 ∧
    (∀ x, 1 ≤ x → x < 10 → (clearLines (lockPiece g)).1.board (idx x 19) = -1) ∧
    (∀ x, x < 10 → (clearLines (lockPiece g)).1.board (idx x 0) = -1) := by
  have hlock : ∀ j, (lockPiece g).board j =
      if j = 160 ∨ j = 170 ∨ j = 180 ∨ j = 190 then 0 else g.board j := by
    intro j
    simp only [lockPiece, hkind, hy]
    exact upright_I_lock g.board g.rotation g.posX hpos j
  have hfull : isRowFull (lockPiece g).board 19 = true := by
    rw [isRowFull_iff]
    intro x hx
    rw [hlock, idx_eq]
    by_cases h0 : x = 0
    · subst h0; simp
    · rw [if_neg (by omega)]
      exact hrow19 x (by omega) hx
  have hothers : ∀ y, y < 20 → y ≠ 19 → isRowFull (lockPiece g).board y = false := by
    intro y hy1 hy2
    rw [isRowFull_false_iff]
    refine ⟨1, by omega, ?_⟩
    rw [hlock, idx_eq, if_neg (by omega)]
    exact hrows 1 (by omega) y (by omega)
  obtain ⟨hc1, hc2, hc3, _⟩ :=
    clearLinesLoop_one_full_row (lockPiece g).board 19 (by omega) hfull hothers
  have hfree := upright_I_free g g.rotation g.posX hrows hcol0 hpos
  have hscore : (lockPiece g).score = g.score := rfl
  have h18 : ∀ x, x < 10 → (clearLinesLoop (lockPiece g).board).1 (idx x 19) =
      (lockPiece g).board (idx x 18) := fun x hx => hc3 19 (by omega) (by omega) x hx
  rw [clearLines_count, clearLines_score, clearLines_board, hc1, hscore, hkind, hy]
  refine ⟨upright_I_cells g.rotation g.posX hpos, hfree.1, hfree.2, rfl,
    addInt32_eq g.score 40 hroom, h18, ?_, ?_, hc2⟩
  · rw [h18 0 (by omega), hlock, idx_eq]
    simp
  · intro x h1 hx
    rw [h18 x hx, hlock, idx_eq, if_neg (by omega)]
    exact hrows x hx 18 (by omega)

/-- Instance of C18: row 19 holds kind 1 in columns 1..9, the I piece is in
rotation 1 at origin (-2,16). -/
theorem upright_I_completes_row_19_witness :
    ((∀ x, x < 10 → ∀ y, y < 19 → gapState.board (idx x y) = -1) ∧
      gapState.board (idx 0 19) = -1 ∧
      (∀ x, 1 ≤ x → x < 10 → gapState.board (idx x 19) ≠ -1) ∧
      gapState.currentPieceIdx = 0 ∧
      ((gapState.rotation = 1 ∧ gapState.posX = -2) ∨
        (gapState.rotation = 3 ∧ gapState.posX = -1)) ∧
      gapState.posY = 16 ∧ InInt32 (gapState.score + 40)) ∧
    (shapeAt gapState.currentPieceIdx gapState.rotation).map
        (fun c => (gapState.posX + c.x, gapState.posY + c.y)) =
      [(0, 16), (0, 17), (0, 18), (0, 19)] ∧
    collides gapState gapState.currentPieceIdx gapState.rotation gapState.posX
      gapState.posY = false ∧
    collides gapState gapState.currentPieceIdx gapState.rotation gapState.posX
      (gapState.posY + 1) = true ∧
    (clearLines (lockPiece gapState)).2 = 1 ∧
    (clearLines (lockPiece gapState)).1.score = gapState.score + 40 ∧
    (∀ x, x < 10 →
      (clearLines (lockPiece gapState)).1.board (idx x 19) =
        (lockPiece gapState).board (idx x 18)) ∧
    (clearLines (lockPiece gapState)).1.board (idx 0 19) = 0 ∧
    (∀ x, 1 ≤ x → x < 10 → (clearLines (lockPiece gapState)).1.board (idx x 19) = -1) ∧
    (∀ x, x < 10 → (clearLines (lockPiece gapState)).1.board (idx x 0) = -1) :=
  ⟨⟨by decide, by decide, by decide, rfl, Or.inl ⟨rfl, rfl⟩, rfl, by decide⟩,
    upright_I_completes_row_19 gapState (by decide) (by decide) (by decide) rfl
      (Or.inl ⟨rfl, rfl⟩) rfl (by decide)⟩

end AraRam
